import Mathlib

/-!
Verification development for the creature data-access service
(`src/candidate_solution.py`).

The relational store is embedded shallowly: each SQLite table is a list of
rows in rowid (scan) order, nullable columns are `Option`-valued, and each
SQL statement of `clean_database` is translated into a pure function on
that store.  The HTTP endpoints are embedded at two levels.  Every handler
wraps its SQL in `with conn.cursor() as cursor:`, and `sqlite3.Cursor`
does not implement the context-manager protocol, so that line raises
`TypeError` unconditionally before any SQL runs (lines 181, 204, 226, 248
and 266 of the source); the `...Endpoint` functions model this actual
control flow — connection check, then the unavoidable HTTP 500 — while the
`...Sql` functions embed the SQL below the raising lines, which is dead
code no request reaches but is the behaviour the handlers were written to
have.  (`clean_database` itself uses a plain `cursor = conn.cursor()`
assignment and genuinely runs.)  Text is modelled on the ASCII plane,
where SQLite's `UPPER`/`LOWER` and Python's `str.capitalize`/`str.lower`
agree.
`INSERT` row identifiers follow SQLite's rowid rule (one greater than the
largest existing rowid), and `INSERT OR IGNORE INTO abilities (name)` is
modelled under the store's unique-name constraint on abilities, the reading
under which `OR IGNORE` is meaningful: insert only when no row has that
exact name.  The external PokéAPI lookup and the `ORDER BY RANDOM()`
trainer choice are inputs of the ingestion function (the lookup reply and
the random draw), resolving their nondeterminism explicitly.
-/

/-- ASCII upper-case letter test (`'A'..'Z'`). -/
def isUpperAlpha (c : Char) : Bool := 'A' ≤ c && c ≤ 'Z'

/-- ASCII lower-case letter test (`'a'..'z'`). -/
def isLowerAlpha (c : Char) : Bool := 'a' ≤ c && c ≤ 'z'

/-- ASCII-plane lower-casing of one character, as SQLite `LOWER` and Python
`str.lower` both perform on ASCII text. -/
def asciiLower (c : Char) : Char :=
  if isUpperAlpha c then Char.ofNat (c.toNat + 32) else c

/-- ASCII-plane upper-casing of one character. -/
def asciiUpper (c : Char) : Char :=
  if isLowerAlpha c then Char.ofNat (c.toNat - 32) else c

/-- Capitalize a character list: first character upper-cased, rest
lower-cased.  This is both the SQL expression
`substr(UPPER(name),1,1) || LOWER(substr(name,2))` of `clean_database` and
Python's `str.capitalize` on ASCII text. -/
def capSeg : List Char → List Char
  | [] => []
  | c :: cs => asciiUpper c :: cs.map asciiLower

/-- `capitalize` on strings (see `capSeg`). -/
def capitalize (s : String) : String := String.mk (capSeg s.data)

/-- Python `name.split('-')` on a character list: split at every hyphen,
keeping empty segments (so the result is always nonempty). -/
def splitHyphen : List Char → List (List Char)
  | [] => [[]]
  | c :: cs =>
    if c = '-' then [] :: splitHyphen cs
    else
      match splitHyphen cs with
      | [] => [[c]]
      | s :: ss => (c :: s) :: ss

/-- Python `'-'.join(parts)` on character lists. -/
def joinHyphen : List (List Char) → List Char
  | [] => []
  | [s] => s
  | s :: ss => s ++ '-' :: joinHyphen ss

/-- The per-ability normalization of `clean_database`:
`'-'.join(part.capitalize() for part in ability_name.split('-'))`. -/
def titleCaseHyphenated (s : String) : String :=
  String.mk (joinHyphen ((splitHyphen s.data).map capSeg))

/-- The case-folding key used by SQLite's `COLLATE NOCASE` (ASCII folding). -/
def foldCase (s : String) : List Char := s.data.map asciiLower

/-- `column = ? COLLATE NOCASE` on a nullable column: `NULL` matches
nothing, otherwise compare case-insensitively. -/
def nocaseMatch (n : Option String) (s : String) : Bool :=
  match n with
  | none => false
  | some x => decide (foldCase x = foldCase s)

/-- A row of the `types` table. -/
structure TypeRow where
  id : Nat
  name : Option String
deriving DecidableEq, Repr

/-- A row of the `abilities` table. -/
structure AbilityRow where
  id : Nat
  name : Option String
deriving DecidableEq, Repr

/-- A row of the `pokemon` table. -/
structure PokemonRow where
  id : Nat
  name : Option String
  type1_id : Option Nat
  type2_id : Option Nat
deriving DecidableEq, Repr

/-- A row of the `trainers` table. -/
structure TrainerRow where
  id : Nat
  name : Option String
deriving DecidableEq, Repr

/-- A row of the `trainer_pokemon_abilities` join table. -/
structure TpaRow where
  id : Nat
  trainer_id : Nat
  pokemon_id : Nat
  ability_id : Nat
deriving DecidableEq, Repr

/-- The relational store: the five tables, each a list of rows in rowid
(scan) order. -/
structure DB where
  types : List TypeRow
  abilities : List AbilityRow
  pokemon : List PokemonRow
  trainers : List TrainerRow
  tpa : List TpaRow
deriving DecidableEq, Repr

/-- The minimum rowid in the group of `rows` sharing key `k`
(`SELECT MIN(id) ... GROUP BY key` for one group; 0 when the group is
empty, in which case it is never consulted). -/
def groupMinId {α β : Type _} [DecidableEq β] (key : α → β) (rowId : α → Nat)
    (rows : List α) (k : β) : Nat :=
  match rows.filter (fun r => decide (key r = k)) with
  | [] => 0
  | r :: rs => rs.foldl (fun m x => min m (rowId x)) (rowId r)

/-- `DELETE FROM t WHERE id NOT IN (SELECT MIN(id) FROM t GROUP BY key)`:
a row survives exactly when its id appears among the per-group minimum
ids. -/
def keepMinPerKey {α β : Type _} [DecidableEq β] (key : α → β) (rowId : α → Nat)
    (rows : List α) : List α :=
  let mins := rows.map (fun r => groupMinId key rowId rows (key r))
  rows.filter (fun r => decide (rowId r ∈ mins))

/-- Cleaning statement 1: deduplicate `abilities` by `name`, keeping the
lowest id (SQLite `GROUP BY` treats `NULL`s as equal). -/
def deleteDuplicateAbilities (db : DB) : DB :=
  { db with abilities := keepMinPerKey (fun a => a.name) (fun a => a.id) db.abilities }

/-- Cleaning statement 2: deduplicate `pokemon` by
`(name, type1_id, type2_id)`, keeping the lowest id. -/
def deleteDuplicatePokemon (db : DB) : DB :=
  { db with pokemon := keepMinPerKey (fun p => (p.name, p.type1_id, p.type2_id)) (fun p => p.id) db.pokemon }

/-- Cleaning statement 3: deduplicate `trainer_pokemon_abilities` by
`(trainer_id, pokemon_id, ability_id)`, keeping the lowest id. -/
def deleteDuplicateTpa (db : DB) : DB :=
  { db with tpa := keepMinPerKey (fun j => (j.trainer_id, j.pokemon_id, j.ability_id)) (fun j => j.id) db.tpa }

/-- Cleaning statement 4: deduplicate `trainers` by `name`, keeping the
lowest id. -/
def deleteDuplicateTrainers (db : DB) : DB :=
  { db with trainers := keepMinPerKey (fun t => t.name) (fun t => t.id) db.trainers }

/-- Cleaning statement 5: deduplicate `types` by `name`, keeping the
lowest id. -/
def deleteDuplicateTypes (db : DB) : DB :=
  { db with types := keepMinPerKey (fun t => t.name) (fun t => t.id) db.types }

/-- Cleaning statement 6: `DELETE FROM abilities WHERE name = 'Remove this
ability'` (exact match; `NULL` names do not match). -/
def deleteSentinelAbilities (db : DB) : DB :=
  { db with abilities := db.abilities.filter (fun a => decide (a.name ≠ some "Remove this ability")) }

/-- Cleaning statement 7: capitalize every non-`NULL` type name. -/
def normalizeTypeNames (db : DB) : DB :=
  { db with types := db.types.map (fun t => { t with name := t.name.map capitalize }) }

/-- The fixed ability misspelling table of cleaning statement 8 (exact
matches only; `NULL` and unlisted names unchanged). -/
def fixAbilityName (n : Option String) : Option String :=
  if n = some "static" then some "Static"
  else if n = some "gras" then some "Grass"
  else if n = some "overgrow" then some "Overgrow"
  else if n = some "Torrent" then some "Torrent"
  else n

/-- Cleaning statement 8: apply `fixAbilityName` to every ability row. -/
def fixAbilityMisspellings (db : DB) : DB :=
  { db with abilities := db.abilities.map (fun a => { a with name := fixAbilityName a.name }) }

/-- `SELECT name FROM types WHERE id = tid` as a scalar subquery: `NULL`
when no row matches or the matching row's name is `NULL`. -/
def typeNameById (types : List TypeRow) (tid : Nat) : Option String :=
  match types.find? (fun t => decide (t.id = tid)) with
  | none => none
  | some t => t.name

/-- `SELECT t.id FROM types t WHERE t.name = n` as a scalar subquery: the
first matching row in scan order, `NULL` when `n` is `NULL` or nothing
matches. -/
def typeIdByName (types : List TypeRow) (n : Option String) : Option Nat :=
  match n with
  | none => none
  | some s =>
    match types.find? (fun t => decide (t.name = some s)) with
    | none => none
    | some t => some t.id

/-- Cleaning statement 9: for every pokemon with a non-`NULL` `type2_id`,
set `type2_id` to the id of the type row whose name equals the capitalized
name of the currently referenced type (so a dangling or `NULL`-named
reference becomes `NULL`). -/
def repointPokemonType2 (db : DB) : DB :=
  { db with pokemon := db.pokemon.map (fun p =>
      match p.type2_id with
      | none => p
      | some tid =>
        { p with type2_id := typeIdByName db.types ((typeNameById db.types tid).map capitalize) }) }

/-- The trainer misspelling table of cleaning statement 10. -/
def fixTrainerName (n : Option String) : Option String :=
  if n = some "misty" then some "Misty" else n

/-- Cleaning statement 10: apply `fixTrainerName` to every trainer row. -/
def fixTrainerMisspellings (db : DB) : DB :=
  { db with trainers := db.trainers.map (fun t => { t with name := fixTrainerName t.name }) }

/-- Cleaning statement 11: `DELETE FROM trainers WHERE name = '' OR name IS
NULL`. -/
def deleteInvalidTrainers (db : DB) : DB :=
  { db with trainers := db.trainers.filter (fun t => decide (t.name ≠ some "" ∧ t.name ≠ none)) }

/-- The pokemon misspelling table of cleaning statement 12. -/
def fixPokemonName (n : Option String) : Option String :=
  if n = some "Pikuchu" then some "Pikachu"
  else if n = some "Charmanderr" then some "Charmander"
  else if n = some "Bulbasuar" then some "Bulbasaur"
  else if n = some "RATtata" then some "Rattata"
  else n

/-- Cleaning statement 12: apply `fixPokemonName` to every pokemon row. -/
def fixPokemonMisspellings (db : DB) : DB :=
  { db with pokemon := db.pokemon.map (fun p => { p with name := fixPokemonName p.name }) }

/-- Cleaning statement 13 (the Python loop): title-case every non-`NULL`
ability name per hyphen-separated segment. -/
def titleCaseAbilityNames (db : DB) : DB :=
  { db with abilities := db.abilities.map (fun a =>
      match a.name with
      | none => a
      | some s => { a with name := some (titleCaseHyphenated s) }) }

/-- The whole cleaning pass `clean_database`, its thirteen statements in
source order. -/
def cleanDatabase (db : DB) : DB :=
  titleCaseAbilityNames
    (fixPokemonMisspellings
      (deleteInvalidTrainers
        (fixTrainerMisspellings
          (repointPokemonType2
            (fixAbilityMisspellings
              (normalizeTypeNames
                (deleteSentinelAbilities
                  (deleteDuplicateTypes
                    (deleteDuplicateTrainers
                      (deleteDuplicateTpa
                        (deleteDuplicatePokemon
                          (deleteDuplicateAbilities db))))))))))))

/-- Transactional run of the cleaning pass with an injected fault.
`failAt = some k` models a `sqlite3.Error` raised by the k-th statement (or
by the commit): all statements run inside the single transaction that
`conn.commit()` would close, so `conn.rollback()` restores the
pre-transaction store; the handler prints the error and returns normally,
so the second component — whether a cleaning error is reported to the
caller — is `false`.  `failAt = none` is the fault-free run, which commits
`cleanDatabase`. -/
def cleanRun (db : DB) (failAt : Option Nat) : DB × Bool :=
  match failAt with
  | some _ => (db, false)
  | none => (cleanDatabase db, false)

-- ### The SQL bodies of the endpoint handlers (dead code) ###
--
-- Each endpoint handler wraps its SQL in `with conn.cursor() as cursor:`.
-- `sqlite3.Cursor` does not implement the context-manager protocol, so
-- that line raises `TypeError: 'sqlite3.Cursor' object does not support
-- the context manager protocol` before the first SQL statement executes
-- (handler lines 181, 204, 226, 248 and 266).  The SQL below those lines
-- is therefore dead code: no request ever runs it.  The `...Sql`
-- functions here embed that dead SQL — the behaviour the handlers were
-- written to have — so that the divergence between it and what actually
-- executes (the `...Endpoint` functions further down) can be stated and
-- proved.  They are NOT models of the live endpoints.

/-- The dead SQL body of `GET /pokemon/ability/{ability_name}` (below the
raising line 181, never executed): names of pokemon joined through
`trainer_pokemon_abilities` to an ability whose name matches
case-insensitively. -/
def getPokemonByAbilitySql (db : DB) (ability_name : String) : List (Option String) :=
  db.pokemon.flatMap (fun p =>
    db.tpa.flatMap (fun j =>
      db.abilities.flatMap (fun a =>
        if decide (p.id = j.pokemon_id) && decide (j.ability_id = a.id)
            && nocaseMatch a.name ability_name then [p.name] else [])))

/-- The dead SQL body of `GET /pokemon/type/{type_name}` (below the
raising line 204, never executed): inner join on `type1_id`, left join on
`type2_id`, keeping rows where either slot's name matches
case-insensitively. -/
def getPokemonByTypeSql (db : DB) (type_name : String) : List (Option String) :=
  db.pokemon.flatMap (fun p =>
    (db.types.filter (fun t1 => decide (p.type1_id = some t1.id))).flatMap (fun t1 =>
      let t2s := db.types.filter (fun t2 => decide (p.type2_id = some t2.id))
      let t2opts : List (Option TypeRow) := if t2s.isEmpty then [none] else t2s.map some
      t2opts.flatMap (fun t2o =>
        if nocaseMatch t1.name type_name
            || (match t2o with
                | some t2 => nocaseMatch t2.name type_name
                | none => false) then [p.name] else [])))

/-- Helper for `SELECT DISTINCT`: drop values already seen. -/
def distinctFirstAux {α : Type _} [DecidableEq α] (seen : List α) : List α → List α
  | [] => []
  | a :: l => if a ∈ seen then distinctFirstAux seen l else a :: distinctFirstAux (a :: seen) l

/-- `SELECT DISTINCT`: keep the first occurrence of each value. -/
def distinctFirst {α : Type _} [DecidableEq α] (l : List α) : List α :=
  distinctFirstAux [] l

/-- The dead SQL body of `GET /trainers/pokemon/{pokemon_name}` (below
the raising line 226, never executed): distinct trainer names joined to a
pokemon whose name matches EXACTLY (the source's `WHERE p.name = ?`
carries no `COLLATE NOCASE`). -/
def getTrainersByPokemonSql (db : DB) (pokemon_name : String) : List (Option String) :=
  distinctFirst (db.trainers.flatMap (fun t =>
    db.tpa.flatMap (fun j =>
      db.pokemon.flatMap (fun p =>
        if decide (t.id = j.trainer_id) && decide (j.pokemon_id = p.id)
            && decide (p.name = some pokemon_name) then [t.name] else []))))

/-- The dead SQL body of `GET /abilities/pokemon/{pokemon_name}` (below
the raising line 248, never executed): ability names joined to a pokemon
whose name matches case-insensitively. -/
def getAbilitiesByPokemonSql (db : DB) (pokemon_name : String) : List (Option String) :=
  db.abilities.flatMap (fun ab =>
    db.tpa.flatMap (fun j =>
      db.pokemon.flatMap (fun p =>
        if decide (ab.id = j.ability_id) && decide (j.pokemon_id = p.id)
            && nocaseMatch p.name pokemon_name then [ab.name] else [])))

/-- SQLite assigns a fresh rowid one greater than the largest existing
rowid. -/
def freshId (ids : List Nat) : Nat := ids.foldr max 0 + 1

/-- The reply of the external lookup collaborator for a creature name:
its ability names and its ordered type names (up to two are used). -/
structure LookupResult where
  abilities : List String
  types : List String
deriving DecidableEq, Repr

/-- Outcome of `POST /trainer-pokemon-abilities/{pokemon_name}`. -/
inductive IngestResult where
  | success (message : String) (inserted_ids : List Nat)
  | alreadyExists
  | notFound
  | noTrainersAvailable
deriving DecidableEq, Repr

/-- The inner `get_or_create_type` of the ingestion endpoint: exact-name
lookup, insert on miss. -/
def getOrCreateType (type_name : Option String) (types : List TypeRow) :
    Option Nat × List TypeRow :=
  match type_name with
  | none => (none, types)
  | some s =>
    match types.find? (fun t => decide (t.name = some s)) with
    | some t => (some t.id, types)
    | none =>
      let nid := freshId (types.map (fun t => t.id))
      (some nid, types ++ [{ id := nid, name := some s }])

/-- One iteration of the ingestion ability loop: `INSERT OR IGNORE` the
ability (under the unique-name constraint), look its id up, and insert the
`(trainer, pokemon, ability)` join row unless it already exists, recording
a newly inserted row's id.  The state is
`(inserted_ids, abilities, trainer_pokemon_abilities)`. -/
def insertAbilityAndJoin (trainer_id pokemon_id : Nat)
    (st : List Nat × List AbilityRow × List TpaRow) (ability : String) :
    List Nat × List AbilityRow × List TpaRow :=
  let (inserted_ids, abilities, tpa) := st
  let abilities2 :=
    if (abilities.find? (fun r => decide (r.name = some ability))).isSome then abilities
    else abilities ++ [{ id := freshId (abilities.map (fun r => r.id)), name := some ability }]
  match abilities2.find? (fun r => decide (r.name = some ability)) with
  | none => (inserted_ids, abilities2, tpa)
  | some arow =>
    if (tpa.find? (fun j => decide (j.trainer_id = trainer_id ∧ j.pokemon_id = pokemon_id
        ∧ j.ability_id = arow.id))).isSome then
      (inserted_ids, abilities2, tpa)
    else
      let nid := freshId (tpa.map (fun j => j.id))
      (inserted_ids ++ [nid], abilities2,
        tpa ++ [{ id := nid, trainer_id := trainer_id, pokemon_id := pokemon_id, ability_id := arow.id }])

/-- The dead body of `POST /trainer-pokemon-abilities/{pokemon_name}`
(`add_trainer_pokemon_abilities`, below the raising line 266, never
executed).  `lookup` is the external collaborator's reply (`none` = not
found); `pick` resolves the `ORDER BY RANDOM() LIMIT 1` trainer draw.
Client-error outcomes return the store unchanged (the `with conn:`
transaction rolls back on the raised exception). -/
def addTrainerPokemonAbilitiesSql (db : DB) (pokemon_name : String)
    (lookup : Option LookupResult) (pick : Nat) : IngestResult × DB :=
  if (db.pokemon.find? (fun p => decide (p.name = some pokemon_name))).isSome then
    (.alreadyExists, db)
  else
    match lookup with
    | none => (.notFound, db)
    | some data =>
      let type1 := data.types[0]?
      let type2 := data.types[1]?
      let (type1_id, types1) := getOrCreateType type1 db.types
      let (type2_id, types2) := getOrCreateType type2 types1
      let (pokemon_id, pokemon2) :=
        match db.pokemon.find? (fun p => decide (p.name = some pokemon_name)) with
        | some p => (p.id, db.pokemon)
        | none =>
          let nid := freshId (db.pokemon.map (fun p => p.id))
          let newRow : PokemonRow :=
            { id := nid, name := some pokemon_name, type1_id := type1_id, type2_id := type2_id }
          (nid, db.pokemon ++ [newRow])
      match db.trainers with
      | [] => (.noTrainersAvailable, db)
      | t :: ts =>
        let trainer_id := ((t :: ts).get ⟨pick % (ts.length + 1), Nat.mod_lt _ (Nat.succ_pos _)⟩).id
        let (inserted_ids, abilities2, tpa2) :=
          data.abilities.foldl (insertAbilityAndJoin trainer_id pokemon_id)
            ([], db.abilities, db.tpa)
        (.success ("Abilities for " ++ pokemon_name ++ " added successfully.") inserted_ids,
          { db with types := types2, abilities := abilities2, pokemon := pokemon2, tpa := tpa2 })

/-- ASCII letter test. -/
def isAlpha (c : Char) : Bool := isUpperAlpha c || isLowerAlpha c

/-- Membership in the regular language `[A-Z][a-z]*` (one segment of the
spec's casing regexes). -/
def segPattern : List Char → Bool
  | [] => false
  | c :: cs => isUpperAlpha c && cs.all isLowerAlpha

/-- Membership in `^[A-Z][a-z]*$`, the spec's post-cleaning Type-name
regex. -/
def matchesTypePattern (s : String) : Bool := segPattern s.data

/-- Membership in `^([A-Z][a-z]*)(-[A-Z][a-z]*)*$`, the spec's
post-cleaning Ability-name regex: hyphen-splitting yields exactly the
maximal hyphen-free runs, so the string matches iff every run matches
`[A-Z][a-z]*` (the split list is always nonempty). -/
def matchesAbilityPattern (s : String) : Bool := (splitHyphen s.data).all segPattern

/-- The case-insensitive comparison key of a nullable name column (`NULL`
keys compare equal to each other only). -/
def nocaseKey (n : Option String) : Option (List Char) := n.map foldCase

/-- A store holding two Type rows whose names differ only in case.  Both
survive the exact-name deduplication and are then both capitalized to
`"Water"`. -/
def twoWaterDB : DB :=
  { types := [⟨1, some "water"⟩, ⟨2, some "Water"⟩], abilities := [], pokemon := [],
    trainers := [], tpa := [] }

/-- A small cleaned store: Pikachu is an Electric-type creature owned by
Ash and expressing Static. -/
def pikaQueryDB : DB :=
  { types := [⟨1, some "Electric"⟩], abilities := [⟨1, some "Static"⟩],
    pokemon := [⟨1, some "Pikachu", some 1, none⟩], trainers := [⟨1, some "Ash"⟩],
    tpa := [⟨1, 1, 1, 1⟩] }

/-- A cleaned store holding the Type "Electric" and one trainer, used to
ingest a creature whose lookup reply carries the lower-case type name
"electric". -/
def electricStoreDB : DB :=
  { types := [⟨1, some "Electric"⟩], abilities := [], pokemon := [],
    trainers := [⟨1, some "Ash"⟩], tpa := [] }

/-- A store whose single join row references pokemon id 2, which does not
exist (a dangling reference of the kind cleaning never repairs). -/
def junkJoinDB : DB :=
  { types := [], abilities := [], pokemon := [⟨1, some "Bulbasaur", none, none⟩],
    trainers := [⟨1, some "Ash"⟩], tpa := [⟨1, 1, 2, 1⟩] }

/-- A store whose single join row references the sentinel ability that
cleaning deletes. -/
def danglingJoinDB : DB :=
  { types := [⟨1, some "Electric"⟩], abilities := [⟨1, some "Remove this ability"⟩],
    pokemon := [⟨1, some "Pikachu", some 1, none⟩], trainers := [⟨1, some "Ash"⟩],
    tpa := [⟨1, 1, 1, 1⟩] }

/-- A store with a Type name containing a digit: capitalization cannot make
it match `^[A-Z][a-z]*$`. -/
def typeDigitDB : DB :=
  { types := [⟨1, some "fire2"⟩], abilities := [], pokemon := [], trainers := [], tpa := [] }

-- ### The endpoint layer as it actually executes ###

/-- The HTTP-level outcome of an endpoint call: a JSON value, or an HTTP
error response carrying a status code and a detail string. -/
inductive HttpResult (α : Type) where
  | ok (value : α)
  | error (status : Nat) (detail : String)
deriving DecidableEq, Repr

/-- `GET /pokemon/ability/{ability_name}` as it actually executes.
`connOk` is whether `connect_db` returns a connection; on failure the
handler raises the HTTP 500 "Database connection error." exception.  With
a live connection the handler enters `with conn:` and then
`with conn.cursor() as cursor:` (line 181); `sqlite3.Cursor` does not
implement the context-manager protocol, so that line raises `TypeError`
before any SQL runs.  The handler has no exception handler, so the
framework turns the escaping `TypeError` into the generic HTTP 500
"Internal Server Error" response.  The store and the path argument are
never consulted; the SQL below the raising line is the dead code embedded
as `getPokemonByAbilitySql`. -/
def getPokemonByAbilityEndpoint (connOk : Bool) (_db : DB) (_ability_name : String) :
    HttpResult (List (Option String)) :=
  if connOk then .error 500 "Internal Server Error"
  else .error 500 "Database connection error."

/-- `GET /pokemon/type/{type_name}` as it actually executes: identical
control flow to `getPokemonByAbilityEndpoint` — connection check, then
the unconditional cursor `TypeError` at line 204 before any SQL, surfaced
as HTTP 500.  Its dead SQL is `getPokemonByTypeSql`. -/
def getPokemonByTypeEndpoint (connOk : Bool) (_db : DB) (_type_name : String) :
    HttpResult (List (Option String)) :=
  if connOk then .error 500 "Internal Server Error"
  else .error 500 "Database connection error."

/-- `GET /trainers/pokemon/{pokemon_name}` as it actually executes:
connection check, then the unconditional cursor `TypeError` at line 226
before any SQL, surfaced as HTTP 500.  Its dead SQL is
`getTrainersByPokemonSql`. -/
def getTrainersByPokemonEndpoint (connOk : Bool) (_db : DB) (_pokemon_name : String) :
    HttpResult (List (Option String)) :=
  if connOk then .error 500 "Internal Server Error"
  else .error 500 "Database connection error."

/-- `GET /abilities/pokemon/{pokemon_name}` as it actually executes:
connection check, then the unconditional cursor `TypeError` at line 248
before any SQL, surfaced as HTTP 500.  Its dead SQL is
`getAbilitiesByPokemonSql`. -/
def getAbilitiesByPokemonEndpoint (connOk : Bool) (_db : DB) (_pokemon_name : String) :
    HttpResult (List (Option String)) :=
  if connOk then .error 500 "Internal Server Error"
  else .error 500 "Database connection error."

/-- `POST /trainer-pokemon-abilities/{pokemon_name}` as it actually
executes.  A failed `connect_db` raises the HTTP 500 "Database connection
error." exception before the `try`.  With a live connection the handler
enters `try`, `with conn:` and then `with conn.cursor() as cursor:`
(line 266), which raises `TypeError` before any SQL runs; the transaction
context exits by rolling back (nothing was written), `except HTTPException`
does not match, and `except Exception` converts the `TypeError` into the
HTTP 500 "Internal server error." response.  The existence check, the
collaborator lookup and every insert below the raising line are the dead
code embedded as `addTrainerPokemonAbilitiesSql`; no call reaches the
AlreadyExists (400), NotFound (404), no-trainers (400) or success
outcomes, and no call writes to the store, which is returned unchanged. -/
def addTrainerPokemonAbilitiesEndpoint (connOk : Bool) (db : DB) (_pokemon_name : String)
    (_lookup : Option LookupResult) (_pick : Nat) : HttpResult (String × List Nat) × DB :=
  if connOk then (.error 500 "Internal server error.", db)
  else (.error 500 "Database connection error.", db)

-- ### Character-level facts about the ASCII casing functions ###

theorem char_eq_of_toNat {a b : Char} (h : a.toNat = b.toNat) : a = b :=
  Char.eq_of_val_eq (UInt32.toNat.inj h)

theorem char_toNat_ofNat (n : Nat) (h : n.isValidChar) : (Char.ofNat n).toNat = n := by
  unfold Char.ofNat
  rw [dif_pos h]
  exact rfl

theorem isUpperAlpha_iff (c : Char) : isUpperAlpha c = true ↔ 65 ≤ c.toNat ∧ c.toNat ≤ 90 := by
  unfold isUpperAlpha
  rw [Bool.and_eq_true, decide_eq_true_eq, decide_eq_true_eq]
  exact ⟨fun h => ⟨h.1, h.2⟩, fun h => ⟨h.1, h.2⟩⟩

theorem isLowerAlpha_iff (c : Char) : isLowerAlpha c = true ↔ 97 ≤ c.toNat ∧ c.toNat ≤ 122 := by
  unfold isLowerAlpha
  rw [Bool.and_eq_true, decide_eq_true_eq, decide_eq_true_eq]
  exact ⟨fun h => ⟨h.1, h.2⟩, fun h => ⟨h.1, h.2⟩⟩

theorem asciiLower_toNat (c : Char) :
    (asciiLower c).toNat = if 65 ≤ c.toNat ∧ c.toNat ≤ 90 then c.toNat + 32 else c.toNat := by
  unfold asciiLower
  by_cases h : isUpperAlpha c = true
  · have hr := (isUpperAlpha_iff c).mp h
    rw [if_pos h, char_toNat_ofNat _ (Or.inl (by omega)), if_pos hr]
  · rw [if_neg h, if_neg (fun hh => h ((isUpperAlpha_iff c).mpr hh))]

theorem asciiUpper_toNat (c : Char) :
    (asciiUpper c).toNat = if 97 ≤ c.toNat ∧ c.toNat ≤ 122 then c.toNat - 32 else c.toNat := by
  unfold asciiUpper
  by_cases h : isLowerAlpha c = true
  · have hr := (isLowerAlpha_iff c).mp h
    rw [if_pos h, char_toNat_ofNat _ (Or.inl (by omega)), if_pos hr]
  · rw [if_neg h, if_neg (fun hh => h ((isLowerAlpha_iff c).mpr hh))]

theorem asciiLower_asciiUpper (c : Char) : asciiLower (asciiUpper c) = asciiLower c := by
  apply char_eq_of_toNat
  rw [asciiLower_toNat, asciiLower_toNat, asciiUpper_toNat]
  split_ifs <;> omega

theorem asciiLower_asciiLower (c : Char) : asciiLower (asciiLower c) = asciiLower c := by
  apply char_eq_of_toNat
  rw [asciiLower_toNat, asciiLower_toNat]
  split_ifs <;> omega

theorem asciiUpper_asciiUpper (c : Char) : asciiUpper (asciiUpper c) = asciiUpper c := by
  apply char_eq_of_toNat
  rw [asciiUpper_toNat, asciiUpper_toNat]
  split_ifs <;> omega

theorem asciiUpper_ne_hyphen {c : Char} (h : c ≠ '-') : asciiUpper c ≠ '-' := by
  intro he
  apply h
  apply char_eq_of_toNat
  have h2 : (asciiUpper c).toNat = 45 := by rw [he]; exact rfl
  rw [asciiUpper_toNat] at h2
  have : ('-').toNat = 45 := rfl
  rw [this]
  split_ifs at h2 <;> omega

theorem asciiLower_ne_hyphen {c : Char} (h : c ≠ '-') : asciiLower c ≠ '-' := by
  intro he
  apply h
  apply char_eq_of_toNat
  have h2 : (asciiLower c).toNat = 45 := by rw [he]; exact rfl
  rw [asciiLower_toNat] at h2
  have : ('-').toNat = 45 := rfl
  rw [this]
  split_ifs at h2 <;> omega

theorem isLowerAlpha_asciiUpper (c : Char) : isLowerAlpha (asciiUpper c) = false := by
  cases hb : isLowerAlpha (asciiUpper c) with
  | false => rfl
  | true =>
    exfalso
    have hr := (isLowerAlpha_iff _).mp hb
    rw [asciiUpper_toNat] at hr
    split_ifs at hr <;> omega

theorem isUpperAlpha_asciiUpper_of_alpha {c : Char} (h : (isUpperAlpha c || isLowerAlpha c) = true) :
    isUpperAlpha (asciiUpper c) = true := by
  rw [Bool.or_eq_true, isUpperAlpha_iff, isLowerAlpha_iff] at h
  rw [isUpperAlpha_iff, asciiUpper_toNat]
  split_ifs <;> omega

theorem isLowerAlpha_asciiLower_of_alpha {c : Char} (h : (isUpperAlpha c || isLowerAlpha c) = true) :
    isLowerAlpha (asciiLower c) = true := by
  rw [Bool.or_eq_true, isUpperAlpha_iff, isLowerAlpha_iff] at h
  rw [isLowerAlpha_iff, asciiLower_toNat]
  split_ifs <;> omega

-- ### String-level facts about the normalization functions ###

theorem capSeg_idem (l : List Char) : capSeg (capSeg l) = capSeg l := by
  cases l with
  | nil => rfl
  | cons c cs =>
    simp only [capSeg, asciiUpper_asciiUpper, List.map_map]
    congr 1
    exact List.map_congr_left (fun x _ => asciiLower_asciiLower x)

theorem map_asciiLower_capSeg (l : List Char) :
    (capSeg l).map asciiLower = l.map asciiLower := by
  cases l with
  | nil => rfl
  | cons c cs =>
    simp only [capSeg, List.map_cons, asciiLower_asciiUpper, List.map_map]
    congr 1
    exact List.map_congr_left (fun x _ => asciiLower_asciiLower x)

theorem capSeg_no_hyphen {l : List Char} (h : '-' ∉ l) : '-' ∉ capSeg l := by
  cases l with
  | nil => simp [capSeg]
  | cons c cs =>
    intro hmem
    rcases List.mem_cons.mp hmem with h1 | h2
    · exact asciiUpper_ne_hyphen (fun hc => h (by rw [hc]; exact List.mem_cons_self _ _)) h1.symm
    · rcases List.mem_map.mp h2 with ⟨x, hx, hxe⟩
      exact asciiLower_ne_hyphen (fun hc => h (List.mem_cons_of_mem _ (hc ▸ hx))) hxe

theorem splitHyphen_ne_nil (l : List Char) : splitHyphen l ≠ [] := by
  cases l with
  | nil => simp [splitHyphen]
  | cons c cs =>
    simp only [splitHyphen]
    split
    · simp
    · split <;> simp

theorem splitHyphen_no_hyphen (l : List Char) : ∀ seg ∈ splitHyphen l, '-' ∉ seg := by
  induction l with
  | nil =>
    intro seg hseg
    simp only [splitHyphen, List.mem_singleton] at hseg
    simp [hseg]
  | cons c cs ih =>
    by_cases hc : c = '-'
    · simp only [splitHyphen, if_pos hc]
      intro seg hseg
      rcases List.mem_cons.mp hseg with h1 | h2
      · simp [h1]
      · exact ih seg h2
    · simp only [splitHyphen, if_neg hc]
      cases heq : splitHyphen cs with
      | nil => exact absurd heq (splitHyphen_ne_nil cs)
      | cons s ss =>
        intro seg hseg
        rcases List.mem_cons.mp hseg with h1 | h2
        · subst h1
          intro hmem
          rcases List.mem_cons.mp hmem with h3 | h4
          · exact hc h3.symm
          · exact ih s (heq ▸ List.mem_cons_self s ss) h4
        · exact ih seg (heq ▸ List.mem_cons_of_mem s h2)

theorem splitHyphen_of_no_hyphen {l : List Char} (h : '-' ∉ l) : splitHyphen l = [l] := by
  induction l with
  | nil => rfl
  | cons c cs ih =>
    have hc : c ≠ '-' := fun hc => h (by rw [hc]; exact List.mem_cons_self _ _)
    have htail : '-' ∉ cs := fun hm => h (List.mem_cons_of_mem _ hm)
    simp only [splitHyphen, if_neg (fun he => hc he), ih htail]

theorem splitHyphen_append_hyphen {s : List Char} (h : '-' ∉ s) (r : List Char) :
    splitHyphen (s ++ '-' :: r) = s :: splitHyphen r := by
  induction s with
  | nil => simp [splitHyphen]
  | cons c cs ih =>
    have hc : c ≠ '-' := fun hc => h (by rw [hc]; exact List.mem_cons_self _ _)
    have htail : '-' ∉ cs := fun hm => h (List.mem_cons_of_mem _ hm)
    simp only [List.cons_append, splitHyphen, if_neg (fun he => hc he)]
    rw [show cs.append ('-' :: r) = cs ++ '-' :: r from rfl, ih htail]

theorem joinHyphen_splitHyphen (l : List Char) : joinHyphen (splitHyphen l) = l := by
  induction l with
  | nil => rfl
  | cons c cs ih =>
    by_cases hc : c = '-'
    · subst hc
      simp only [splitHyphen, if_pos rfl]
      cases heq : splitHyphen cs with
      | nil => exact absurd heq (splitHyphen_ne_nil cs)
      | cons s ss =>
        rw [heq] at ih
        simp only [joinHyphen, List.nil_append]
        cases ss with
        | nil => simp only [joinHyphen] at ih ⊢; rw [ih]
        | cons s2 ss2 => rw [ih]
    · simp only [splitHyphen, if_neg hc]
      cases heq : splitHyphen cs with
      | nil => exact absurd heq (splitHyphen_ne_nil cs)
      | cons s ss =>
        rw [heq] at ih
        cases ss with
        | nil => simp only [joinHyphen] at ih ⊢; rw [ih]
        | cons s2 ss2 =>
          simp only [joinHyphen, List.cons_append] at ih ⊢
          rw [← ih]

theorem splitHyphen_joinHyphen (ss : List (List Char)) (h1 : ss ≠ [])
    (h2 : ∀ seg ∈ ss, '-' ∉ seg) : splitHyphen (joinHyphen ss) = ss := by
  induction ss with
  | nil => exact absurd rfl h1
  | cons s rest ih =>
    cases rest with
    | nil =>
      simp only [joinHyphen]
      exact splitHyphen_of_no_hyphen (h2 s (List.mem_cons_self _ _))
    | cons s2 rest2 =>
      simp only [joinHyphen]
      rw [splitHyphen_append_hyphen (h2 s (List.mem_cons_self _ _))]
      rw [ih (by simp) (fun seg hseg => h2 seg (List.mem_cons_of_mem _ hseg))]

theorem map_asciiLower_joinHyphen (ss : List (List Char)) :
    (joinHyphen ss).map asciiLower = joinHyphen (ss.map (List.map asciiLower)) := by
  induction ss with
  | nil => rfl
  | cons s rest ih =>
    cases rest with
    | nil => rfl
    | cons s2 rest2 =>
      simp only [joinHyphen, List.map_append, List.map_cons, List.map_map] at ih ⊢
      rw [show asciiLower '-' = '-' from rfl, ih]

theorem foldCase_capitalize (s : String) : foldCase (capitalize s) = foldCase s := by
  unfold foldCase capitalize
  exact map_asciiLower_capSeg s.data

theorem capitalize_idem (s : String) : capitalize (capitalize s) = capitalize s := by
  unfold capitalize
  exact congrArg String.mk (capSeg_idem s.data)

theorem foldCase_titleCaseHyphenated (s : String) :
    foldCase (titleCaseHyphenated s) = foldCase s := by
  unfold foldCase titleCaseHyphenated
  show (joinHyphen ((splitHyphen s.data).map capSeg)).map asciiLower = s.data.map asciiLower
  rw [map_asciiLower_joinHyphen, List.map_map]
  have h1 : ((splitHyphen s.data).map (List.map asciiLower ∘ capSeg))
      = (splitHyphen s.data).map (List.map asciiLower) := by
    apply List.map_congr_left
    intro seg _
    exact map_asciiLower_capSeg seg
  rw [h1, ← map_asciiLower_joinHyphen, joinHyphen_splitHyphen]

theorem titleCaseHyphenated_idem (s : String) :
    titleCaseHyphenated (titleCaseHyphenated s) = titleCaseHyphenated s := by
  unfold titleCaseHyphenated
  apply congrArg String.mk
  show joinHyphen ((splitHyphen (joinHyphen ((splitHyphen s.data).map capSeg))).map capSeg)
      = joinHyphen ((splitHyphen s.data).map capSeg)
  rw [splitHyphen_joinHyphen ((splitHyphen s.data).map capSeg)
      (by simpa using splitHyphen_ne_nil s.data)
      (by
        intro seg hseg
        rcases List.mem_map.mp hseg with ⟨x, hx, hxe⟩
        exact hxe ▸ capSeg_no_hyphen (splitHyphen_no_hyphen s.data x hx))]
  rw [List.map_map]
  apply congrArg joinHyphen
  apply List.map_congr_left
  intro seg _
  exact capSeg_idem seg

-- ### Facts about the keep-lowest-id deduplication ###

theorem foldl_min_map (rowId : α → Nat) (gs : List α) (a : Nat) :
    gs.foldl (fun m x => min m (rowId x)) a = (gs.map rowId).foldl min a := by
  induction gs generalizing a with
  | nil => rfl
  | cons g gs ih => simp only [List.foldl_cons, List.map_cons, ih]

theorem foldl_min_le_init (ns : List Nat) (a : Nat) : ns.foldl min a ≤ a := by
  induction ns generalizing a with
  | nil => exact le_refl a
  | cons n ns ih => exact le_trans (ih (min a n)) (min_le_left a n)

theorem foldl_min_le_mem (ns : List Nat) (a : Nat) : ∀ x ∈ ns, ns.foldl min a ≤ x := by
  induction ns generalizing a with
  | nil => intro x hx; exact absurd hx (List.not_mem_nil x)
  | cons n ns ih =>
    intro x hx
    rcases List.mem_cons.mp hx with h1 | h2
    · rw [List.foldl_cons, h1]
      exact le_trans (foldl_min_le_init ns (min a n)) (min_le_right a n)
    · rw [List.foldl_cons]
      exact ih (min a n) x h2

theorem foldl_min_eq_or_mem (ns : List Nat) (a : Nat) :
    ns.foldl min a = a ∨ ns.foldl min a ∈ ns := by
  induction ns generalizing a with
  | nil => exact Or.inl rfl
  | cons n ns ih =>
    rcases ih (min a n) with h | h
    · rw [List.foldl_cons, h]
      rcases Nat.le_total a n with hle | hle
      · exact Or.inl (min_eq_left hle)
      · exact Or.inr (by rw [min_eq_right hle]; exact List.mem_cons_self n ns)
    · exact Or.inr (List.mem_cons_of_mem n h)

theorem groupMinId_le {α β : Type _} [DecidableEq β] {key : α → β} {rowId : α → Nat}
    {l : List α} {r : α} {k : β} (hr : r ∈ l) (hk : key r = k) :
    groupMinId key rowId l k ≤ rowId r := by
  have hrg : r ∈ l.filter (fun x => decide (key x = k)) :=
    List.mem_filter.mpr ⟨hr, by simpa using hk⟩
  unfold groupMinId
  cases hg : l.filter (fun x => decide (key x = k)) with
  | nil => rw [hg] at hrg; exact absurd hrg (List.not_mem_nil r)
  | cons g0 gs =>
    rw [hg] at hrg
    show gs.foldl (fun m x => min m (rowId x)) (rowId g0) ≤ rowId r
    rw [foldl_min_map]
    rcases List.mem_cons.mp hrg with h1 | h2
    · rw [h1]
      exact foldl_min_le_init _ _
    · exact foldl_min_le_mem _ _ _ (List.mem_map_of_mem rowId h2)

theorem groupMinId_attained {α β : Type _} [DecidableEq β] (key : α → β) (rowId : α → Nat)
    {l : List α} {k : β} {r0 : α} (hr0 : r0 ∈ l) (hk0 : key r0 = k) :
    ∃ r ∈ l, key r = k ∧ rowId r = groupMinId key rowId l k := by
  have hrg : r0 ∈ l.filter (fun x => decide (key x = k)) :=
    List.mem_filter.mpr ⟨hr0, by simpa using hk0⟩
  unfold groupMinId
  cases hg : l.filter (fun x => decide (key x = k)) with
  | nil => rw [hg] at hrg; exact absurd hrg (List.not_mem_nil r0)
  | cons g0 gs =>
    have hg0 : g0 ∈ l ∧ key g0 = k := by
      have : g0 ∈ l.filter (fun x => decide (key x = k)) := by
        rw [hg]; exact List.mem_cons_self g0 gs
      exact ⟨(List.mem_filter.mp this).1, by simpa using (List.mem_filter.mp this).2⟩
    show ∃ r ∈ l, key r = k ∧ rowId r = gs.foldl (fun m x => min m (rowId x)) (rowId g0)
    simp only [foldl_min_map]
    rcases foldl_min_eq_or_mem (gs.map rowId) (rowId g0) with h | h
    · exact ⟨g0, hg0.1, hg0.2, h.symm⟩
    · rcases List.mem_map.mp h with ⟨x, hx, hxe⟩
      have hxg : x ∈ l ∧ key x = k := by
        have : x ∈ l.filter (fun y => decide (key y = k)) := by
          rw [hg]; exact List.mem_cons_of_mem g0 hx
        exact ⟨(List.mem_filter.mp this).1, by simpa using (List.mem_filter.mp this).2⟩
      exact ⟨x, hxg.1, hxg.2, hxe⟩

theorem keepMinPerKey_sublist {α β : Type _} [DecidableEq β] (key : α → β) (rowId : α → Nat)
    (l : List α) : (keepMinPerKey key rowId l).Sublist l :=
  List.filter_sublist l

theorem keyInj_of_pairwise {α β : Type _} {key : α → β} {l : List α}
    (hp : l.Pairwise (fun a b => key a ≠ key b)) :
    ∀ a ∈ l, ∀ b ∈ l, key a = key b → a = b := by
  intro a ha b hb he
  by_contra hne
  exact hp.forall (fun x y hxy => fun hyx => hxy hyx.symm) ha hb hne he

theorem keepMinPerKey_of_pairwise {α β : Type _} [DecidableEq β] {key : α → β} {rowId : α → Nat}
    {l : List α} (hp : l.Pairwise (fun a b => key a ≠ key b)) :
    keepMinPerKey key rowId l = l := by
  unfold keepMinPerKey
  apply List.filter_eq_self.mpr
  intro r hr
  have hmin : groupMinId key rowId l (key r) = rowId r := by
    apply le_antisymm (groupMinId_le hr rfl)
    rcases groupMinId_attained key rowId hr rfl with ⟨r2, hr2, hk2, he2⟩
    have : r2 = r := keyInj_of_pairwise hp r2 hr2 r hr hk2
    rw [← he2, this]
  simp only [decide_eq_true_eq]
  exact List.mem_map.mpr ⟨r, hr, hmin⟩

theorem keepMinPerKey_pairwise {α β : Type _} [DecidableEq β] {key : α → β} {rowId : α → Nat}
    {l : List α} (hnd : (l.map rowId).Nodup) :
    (keepMinPerKey key rowId l).Pairwise (fun a b => key a ≠ key b) := by
  have inj : ∀ x ∈ l, ∀ y ∈ l, rowId x = rowId y → x = y := List.inj_on_of_nodup_map hnd
  have hsub := keepMinPerKey_sublist key rowId l
  have hmem : ∀ r ∈ keepMinPerKey key rowId l, r ∈ l := fun r hr => hsub.mem hr
  have step1 : ∀ r ∈ keepMinPerKey key rowId l, rowId r = groupMinId key rowId l (key r) := by
    intro r hr
    unfold keepMinPerKey at hr
    have hr2 := List.mem_filter.mp hr
    have hmins : rowId r ∈ l.map (fun x => groupMinId key rowId l (key x)) := by
      simpa using hr2.2
    rcases List.mem_map.mp hmins with ⟨x, hx, hxe⟩
    rcases groupMinId_attained key rowId hx rfl with ⟨r2, hr2l, hk2, he2⟩
    have hre : r2 = r := inj r2 hr2l r hr2.1 (by rw [he2, hxe])
    have hkrx : key r = key x := by rw [← hre]; exact hk2
    rw [hkrx, hxe]
  have step2 : ∀ a ∈ keepMinPerKey key rowId l, ∀ b ∈ keepMinPerKey key rowId l,
      key a = key b → a = b := by
    intro a ha b hb he
    apply inj a (hmem a ha) b (hmem b hb)
    rw [step1 a ha, step1 b hb, he]
  have hnodup : (keepMinPerKey key rowId l).Nodup := (hnd.of_map).sublist hsub
  exact hnodup.imp_of_mem (fun {a b} ha hb hne => fun hke => hne (step2 a ha b hb hke))

-- ### Small helper facts ###

theorem find?_eq_some_of_unique {α : Type _} {p : α → Bool} {t : α} :
    ∀ {l : List α}, t ∈ l → p t = true → (∀ x ∈ l, p x = true → x = t) →
      l.find? p = some t := by
  intro l
  induction l with
  | nil => intro h; exact absurd h (List.not_mem_nil t)
  | cons a l ih =>
    intro hmem hp uniq
    by_cases ha : p a = true
    · rw [List.find?_cons_of_pos l ha, uniq a (List.mem_cons_self a l) ha]
    · have hne : t ≠ a := fun he => ha (he ▸ hp)
      have htl : t ∈ l := by
        rcases List.mem_cons.mp hmem with h1 | h2
        · exact absurd h1 hne
        · exact h2
      rw [List.find?_cons_of_neg l (by simpa using ha)]
      exact ih htl hp (fun x hx hpx => uniq x (List.mem_cons_of_mem a hx) hpx)

theorem distinctFirstAux_eq_nil {α : Type _} [DecidableEq α] :
    ∀ {l seen : List α}, distinctFirstAux seen l = [] ↔ ∀ a ∈ l, a ∈ seen := by
  intro l
  induction l with
  | nil => intro seen; simp [distinctFirstAux]
  | cons a l ih =>
    intro seen
    by_cases h : a ∈ seen
    · simp only [distinctFirstAux, if_pos h, ih, List.forall_mem_cons]
      exact ⟨fun hh => ⟨h, hh⟩, fun hh => hh.2⟩
    · simp only [distinctFirstAux, if_neg h, List.forall_mem_cons]
      constructor
      · intro hh
        exact absurd hh (List.cons_ne_nil a _)
      · intro hh
        exact absurd hh.1 h

theorem distinctFirst_eq_nil {α : Type _} [DecidableEq α] {l : List α} :
    distinctFirst l = [] ↔ l = [] := by
  unfold distinctFirst
  rw [distinctFirstAux_eq_nil]
  simp [List.eq_nil_iff_forall_not_mem]

theorem le_foldr_max_of_mem {x : Nat} : ∀ {ids : List Nat}, x ∈ ids → x ≤ ids.foldr max 0 := by
  intro ids
  induction ids with
  | nil => intro h; exact absurd h (List.not_mem_nil x)
  | cons i ids ih =>
    intro h
    rcases List.mem_cons.mp h with h1 | h2
    · rw [h1]; exact le_max_left _ _
    · exact le_trans (ih h2) (le_max_right _ _)

theorem lt_freshId_of_mem {x : Nat} {ids : List Nat} (h : x ∈ ids) : x < freshId ids :=
  Nat.lt_succ_of_le (le_foldr_max_of_mem h)

-- ### Frame behaviour of the cleaning pass on the join table ###

theorem cleanDatabase_tpa (db : DB) :
    (cleanDatabase db).tpa
      = keepMinPerKey (fun j => (j.trainer_id, j.pokemon_id, j.ability_id)) (fun j => j.id) db.tpa := rfl

/-- C10.  The cleaning pass touches join rows only through their own
`(trainer_id, pokemon_id, ability_id)` deduplication: for every store the
surviving join rows are exactly the keep-lowest-id deduplication of the
original join table, whatever entity rows the pass deletes, so a join row
whose referenced ability (for instance the deleted sentinel) is gone
survives as a dangling reference, invisible to the query layer — in
`danglingJoinDB` the sentinel ability row is deleted and the join row
referencing it survives unchanged; the joins of the handlers' dead SQL
(abilities-of-Pikachu and creatures-with-the-sentinel-ability) skip it
and return nothing, and the live endpoints, which fail with HTTP 500
before any SQL runs, expose no row of any kind, dangling or otherwise. -/
theorem clean_joins_only_dedup_and_dangling_survives :
    (∀ db : DB, (cleanDatabase db).tpa
        = keepMinPerKey (fun j => (j.trainer_id, j.pokemon_id, j.ability_id)) (fun j => j.id) db.tpa)
      ∧ (cleanDatabase danglingJoinDB).tpa = [⟨1, 1, 1, 1⟩]
      ∧ (cleanDatabase danglingJoinDB).abilities = []
      ∧ getAbilitiesByPokemonSql (cleanDatabase danglingJoinDB) "Pikachu" = []
      ∧ getPokemonByAbilitySql (cleanDatabase danglingJoinDB) "Remove this ability" = []
      ∧ getAbilitiesByPokemonEndpoint true (cleanDatabase danglingJoinDB) "Pikachu"
          = .error 500 "Internal Server Error"
      ∧ getPokemonByAbilityEndpoint true (cleanDatabase danglingJoinDB) "Remove this ability"
          = .error 500 "Internal Server Error" := by
  refine ⟨fun db => rfl, ?_, ?_, ?_, ?_, ?_, ?_⟩ <;> decide

-- ### Transactional behaviour of the cleaning pass ###

/-- C8 (amended).  A faulting cleaning run rolls the store back to exactly
its pre-transaction state — no partial cleaning is ever committed — and a
fault-free run commits the full `cleanDatabase` result; but in neither case
is a cleaning error reported to the caller (the handler prints and
swallows the exception). -/
theorem cleanRun_rolls_back_but_never_reports :
    (∀ (db : DB) (k : Nat), cleanRun db (some k) = (db, false))
      ∧ (∀ db : DB, cleanRun db none = (cleanDatabase db, false))
      ∧ (∀ (db : DB) (failAt : Option Nat), (cleanRun db failAt).2 = false) := by
  refine ⟨fun db k => rfl, fun db => rfl, fun db failAt => ?_⟩
  cases failAt <;> rfl

/-- C8 counterexample.  The claim says a failing cleaning pass reports a
`CleaningError` to its caller; on the concrete store `twoWaterDB` with a
fault injected at the first statement, the rollback indeed restores the
store unchanged, but no error reaches the caller. -/
theorem cleanRun_failure_not_reported :
    (cleanRun twoWaterDB (some 0)).1 = twoWaterDB
      ∧ ¬ (cleanRun twoWaterDB (some 0)).2 = true := by
  exact ⟨rfl, by decide⟩

-- ### The empty-result contract of the query layer ###

/-- C6 (code bug).  As executed, the empty-result contract is broken on
every request: with the connection live and zero rows matching — indeed
whatever the store holds and whatever the lookup argument — each of the
four read handlers raises `TypeError` at `with conn.cursor()` before its
SQL runs and responds with HTTP 500 instead of a list, so a read errors
without any infrastructure failure and never returns the empty list (the
`false` cases are the one error the claim does allow, the connection
failure). -/
theorem reads_error_without_infrastructure_failure :
    ∀ (db : DB) (s : String),
      getPokemonByAbilityEndpoint true db s = .error 500 "Internal Server Error"
        ∧ getPokemonByTypeEndpoint true db s = .error 500 "Internal Server Error"
        ∧ getTrainersByPokemonEndpoint true db s = .error 500 "Internal Server Error"
        ∧ getAbilitiesByPokemonEndpoint true db s = .error 500 "Internal Server Error"
        ∧ getPokemonByAbilityEndpoint false db s = .error 500 "Database connection error."
        ∧ getPokemonByTypeEndpoint false db s = .error 500 "Database connection error."
        ∧ getTrainersByPokemonEndpoint false db s = .error 500 "Database connection error."
        ∧ getAbilitiesByPokemonEndpoint false db s = .error 500 "Database connection error." := by
  intro db s
  exact ⟨rfl, rfl, rfl, rfl, rfl, rfl, rfl, rfl⟩

/-- The empty-result characterization of the handlers' dead SQL: each
SELECT's row set is empty exactly when no row combination satisfies its
WHERE condition.  This is the contract the spec intends, but it never
governs a response: the live endpoints fail before this SQL runs (see
`reads_error_without_infrastructure_failure`). -/
theorem queries_empty_iff_no_match : ∀ (db : DB) (s : String),
    (getPokemonByAbilitySql db s = []
      ↔ ∀ p ∈ db.pokemon, ∀ j ∈ db.tpa, ∀ a ∈ db.abilities,
          ¬(p.id = j.pokemon_id ∧ j.ability_id = a.id ∧ nocaseMatch a.name s = true))
    ∧ (getPokemonByTypeSql db s = []
      ↔ ∀ p ∈ db.pokemon, ∀ t1 ∈ db.types, p.type1_id = some t1.id →
          nocaseMatch t1.name s = false
            ∧ ∀ t2 ∈ db.types, p.type2_id = some t2.id → nocaseMatch t2.name s = false)
    ∧ (getTrainersByPokemonSql db s = []
      ↔ ∀ t ∈ db.trainers, ∀ j ∈ db.tpa, ∀ p ∈ db.pokemon,
          ¬(t.id = j.trainer_id ∧ j.pokemon_id = p.id ∧ p.name = some s))
    ∧ (getAbilitiesByPokemonSql db s = []
      ↔ ∀ ab ∈ db.abilities, ∀ j ∈ db.tpa, ∀ p ∈ db.pokemon,
          ¬(ab.id = j.ability_id ∧ j.pokemon_id = p.id ∧ nocaseMatch p.name s = true)) := by
  intro db s
  refine ⟨?_, ?_, ?_, ?_⟩
  · unfold getPokemonByAbilitySql
    simp only [List.flatMap_eq_nil_iff]
    constructor
    · intro h p hp j hj a ha hc
      have hcond : (decide (p.id = j.pokemon_id) && decide (j.ability_id = a.id)
          && nocaseMatch a.name s) = true := by
        simp only [Bool.and_eq_true, decide_eq_true_eq]
        exact ⟨⟨hc.1, hc.2.1⟩, hc.2.2⟩
      have h2 := h p hp j hj a ha
      rw [if_pos hcond] at h2
      exact List.cons_ne_nil _ _ h2
    · intro h p hp j hj a ha
      have hcond : ¬((decide (p.id = j.pokemon_id) && decide (j.ability_id = a.id)
          && nocaseMatch a.name s) = true) := by
        intro hc
        simp only [Bool.and_eq_true, decide_eq_true_eq] at hc
        exact h p hp j hj a ha ⟨hc.1.1, hc.1.2, hc.2⟩
      rw [if_neg hcond]
  · unfold getPokemonByTypeSql
    simp only [List.flatMap_eq_nil_iff]
    constructor
    · intro h p hp t1 ht1m ht1
      have ht1f : t1 ∈ db.types.filter (fun t1 => decide (p.type1_id = some t1.id)) :=
        List.mem_filter.mpr ⟨ht1m, by simpa using ht1⟩
      constructor
      · cases hcase : nocaseMatch t1.name s with
        | false => rfl
        | true =>
          exfalso
          have hne := h p hp t1 ht1f
          have hnonempty : ∃ x, x ∈ (if (db.types.filter (fun t2 => decide (p.type2_id = some t2.id))).isEmpty
              then ([none] : List (Option TypeRow))
              else (db.types.filter (fun t2 => decide (p.type2_id = some t2.id))).map some) := by
            cases hemp : (db.types.filter (fun t2 => decide (p.type2_id = some t2.id))).isEmpty with
            | true => exact ⟨none, by rw [if_pos rfl]; exact List.mem_singleton.mpr rfl⟩
            | false =>
              have hnil : db.types.filter (fun t2 => decide (p.type2_id = some t2.id)) ≠ [] := by
                intro hnil
                rw [hnil] at hemp
                simp at hemp
              rcases List.exists_mem_of_ne_nil _ hnil with ⟨t2, ht2⟩
              exact ⟨some t2, by rw [if_neg (by simp [hemp])]; exact List.mem_map_of_mem some ht2⟩
          rcases hnonempty with ⟨x, hx⟩
          have hx2 := hne x hx
          rw [if_pos (by rw [hcase]; exact rfl)] at hx2
          exact List.cons_ne_nil _ _ hx2
      · intro t2 ht2m ht2
        cases hcase : nocaseMatch t2.name s with
        | false => rfl
        | true =>
          exfalso
          have ht2f : t2 ∈ db.types.filter (fun t2 => decide (p.type2_id = some t2.id)) :=
            List.mem_filter.mpr ⟨ht2m, by simpa using ht2⟩
          have hnemp : (db.types.filter (fun t2 => decide (p.type2_id = some t2.id))).isEmpty = false := by
            cases hemp : (db.types.filter (fun t2 => decide (p.type2_id = some t2.id))).isEmpty with
            | false => rfl
            | true =>
              rw [List.isEmpty_iff] at hemp
              rw [hemp] at ht2f
              exact absurd ht2f (List.not_mem_nil t2)
          have hx : some t2 ∈ (if (db.types.filter (fun t2 => decide (p.type2_id = some t2.id))).isEmpty
              then ([none] : List (Option TypeRow))
              else (db.types.filter (fun t2 => decide (p.type2_id = some t2.id))).map some) := by
            rw [if_neg (by simp [hnemp])]
            exact List.mem_map_of_mem some ht2f
          have hx2 := h p hp t1 ht1f (some t2) hx
          have hct : (nocaseMatch t1.name s
              || (match some t2 with
                  | some t2 => nocaseMatch t2.name s
                  | none => false)) = true := by
            show (nocaseMatch t1.name s || nocaseMatch t2.name s) = true
            rw [hcase, Bool.or_true]
          rw [if_pos hct] at hx2
          exact List.cons_ne_nil _ _ hx2
    · intro h p hp t1 ht1f x hx
      have ht1 := List.mem_filter.mp ht1f
      have hspec := h p hp t1 ht1.1 (by simpa using ht1.2)
      cases x with
      | none =>
        show (if (nocaseMatch t1.name s || false) = true then [p.name] else []) = []
        rw [Bool.or_false, hspec.1]
        exact if_neg (by simp)
      | some t2 =>
        show (if (nocaseMatch t1.name s || nocaseMatch t2.name s) = true then [p.name] else []) = []
        have h2 : nocaseMatch t2.name s = false := by
          by_cases hemp : (db.types.filter (fun t2 => decide (p.type2_id = some t2.id))).isEmpty = true
          · rw [if_pos hemp] at hx
            exact absurd (List.mem_singleton.mp hx) (by simp)
          · rw [if_neg hemp] at hx
            rcases List.mem_map.mp hx with ⟨t2x, ht2x, he⟩
            have ht2 := List.mem_filter.mp ht2x
            have he2 : t2x = t2 := Option.some.inj he
            rw [he2] at ht2
            exact hspec.2 t2 ht2.1 (by simpa using ht2.2)
        rw [hspec.1, h2]
        exact if_neg (by simp)
  · unfold getTrainersByPokemonSql
    rw [distinctFirst_eq_nil]
    simp only [List.flatMap_eq_nil_iff]
    constructor
    · intro h t ht j hj p hp hc
      have hcond : (decide (t.id = j.trainer_id) && decide (j.pokemon_id = p.id)
          && decide (p.name = some s)) = true := by
        simp only [Bool.and_eq_true, decide_eq_true_eq]
        exact ⟨⟨hc.1, hc.2.1⟩, hc.2.2⟩
      have h2 := h t ht j hj p hp
      rw [if_pos hcond] at h2
      exact List.cons_ne_nil _ _ h2
    · intro h t ht j hj p hp
      have hcond : ¬((decide (t.id = j.trainer_id) && decide (j.pokemon_id = p.id)
          && decide (p.name = some s)) = true) := by
        intro hc
        simp only [Bool.and_eq_true, decide_eq_true_eq] at hc
        exact h t ht j hj p hp ⟨hc.1.1, hc.1.2, hc.2⟩
      rw [if_neg hcond]
  · unfold getAbilitiesByPokemonSql
    simp only [List.flatMap_eq_nil_iff]
    constructor
    · intro h ab hab j hj p hp hc
      have hcond : (decide (ab.id = j.ability_id) && decide (j.pokemon_id = p.id)
          && nocaseMatch p.name s) = true := by
        simp only [Bool.and_eq_true, decide_eq_true_eq]
        exact ⟨⟨hc.1, hc.2.1⟩, hc.2.2⟩
      have h2 := h ab hab j hj p hp
      rw [if_pos hcond] at h2
      exact List.cons_ne_nil _ _ h2
    · intro h ab hab j hj p hp
      have hcond : ¬((decide (ab.id = j.ability_id) && decide (j.pokemon_id = p.id)
          && nocaseMatch p.name s) = true) := by
        intro hc
        simp only [Bool.and_eq_true, decide_eq_true_eq] at hc
        exact h ab hab j hj p hp ⟨hc.1.1, hc.1.2, hc.2⟩
      rw [if_neg hcond]

-- ### Ingestion rejection paths ###

/-- C7 (code bug).  Neither rejection condition is reachable: on every
call with a live connection — name present locally, name absent from the
collaborator, or otherwise — the handler raises `TypeError` at
`with conn.cursor()` (line 266) before its existence check runs, and
`except Exception` converts it into the HTTP 500 "Internal server error."
response; a dead connection yields the HTTP 500 "Database connection
error." exception instead.  Only the no-writes half of the claim holds:
the transaction rolls back, so the returned store is always exactly the
input store. -/
theorem ingest_rejections_unreachable :
    ∀ (db : DB) (n : String) (lk : Option LookupResult) (pick : Nat),
      addTrainerPokemonAbilitiesEndpoint true db n lk pick
          = (.error 500 "Internal server error.", db)
        ∧ addTrainerPokemonAbilitiesEndpoint false db n lk pick
          = (.error 500 "Database connection error.", db) := by
  intro db n lk pick
  exact ⟨rfl, rfl⟩

/-- The rejection paths of the ingest handler's dead code (never reached):
had the SQL run, ingesting a name already present locally would return the
AlreadyExists condition, and ingesting a name the lookup collaborator
reports as absent would return the NotFound condition, both with the store
unchanged. -/
theorem ingest_rejections_leave_store_unchanged :
    ∀ (db : DB) (n : String) (lk : Option LookupResult) (pick : Nat),
      ((∃ p ∈ db.pokemon, p.name = some n) →
        addTrainerPokemonAbilitiesSql db n lk pick = (.alreadyExists, db))
      ∧ ((∀ p ∈ db.pokemon, p.name ≠ some n) →
        addTrainerPokemonAbilitiesSql db n none pick = (.notFound, db)) := by
  intro db n lk pick
  constructor
  · rintro ⟨p, hp, hname⟩
    have hs : (db.pokemon.find? (fun p => decide (p.name = some n))).isSome = true :=
      List.find?_isSome.mpr ⟨p, hp, by simpa using hname⟩
    unfold addTrainerPokemonAbilitiesSql
    rw [if_pos hs]
  · intro hall
    have hnone : db.pokemon.find? (fun p => decide (p.name = some n)) = none :=
      List.find?_eq_none.mpr (fun x hx => by simpa using hall x hx)
    unfold addTrainerPokemonAbilitiesSql
    rw [if_neg (by rw [hnone]; simp)]

/-- Instance of the dead rejection paths: rejecting the already-present
"Pikachu" and the absent-from-the-collaborator "Mew" on the concrete store
`pikaQueryDB`. -/
theorem ingest_rejections_dead_sql_instance :
    addTrainerPokemonAbilitiesSql pikaQueryDB "Pikachu" none 0 = (.alreadyExists, pikaQueryDB)
      ∧ addTrainerPokemonAbilitiesSql pikaQueryDB "Mew" none 0 = (.notFound, pikaQueryDB) :=
  ⟨(ingest_rejections_leave_store_unchanged pikaQueryDB "Pikachu" none 0).1
      ⟨⟨1, some "Pikachu", some 1, none⟩, by decide, by decide⟩,
    (ingest_rejections_leave_store_unchanged pikaQueryDB "Mew" none 0).2 (by decide)⟩

-- ### Case sensitivity of the query layer ###

theorem nocaseMatch_congr (n : Option String) {s1 s2 : String}
    (h : foldCase s1 = foldCase s2) : nocaseMatch n s1 = nocaseMatch n s2 := by
  cases n with
  | none => rfl
  | some x => simp only [nocaseMatch]; rw [h]

/-- C5 (amended).  As executed no read operation matches anything: every
read endpoint responds HTTP 500 (the cursor `TypeError`) before any
matching occurs, so no query returns a list at all.  In the dead SQL the
handlers were written to run, matching is case-insensitive for
creatures-by-ability, creatures-by-type and abilities-by-creature (two
arguments with the same case-folding give identical results), and on the
cleaned store `pikaQueryDB` (a fixed point of the cleaning pass) that SQL
finds "Pikachu" under any casing of "electric"; but the
trainers-by-creature SQL matches the creature name case-sensitively:
"Pikachu" would find Ash while "pikachu" would find nobody. -/
theorem reads_error_and_dead_sql_case_insensitive_except_trainers :
    (∀ (db : DB) (s : String),
        getPokemonByTypeEndpoint true db s = .error 500 "Internal Server Error"
          ∧ getTrainersByPokemonEndpoint true db s = .error 500 "Internal Server Error")
    ∧ (∀ (db : DB) (s1 s2 : String), foldCase s1 = foldCase s2 →
        getPokemonByAbilitySql db s1 = getPokemonByAbilitySql db s2)
    ∧ (∀ (db : DB) (s1 s2 : String), foldCase s1 = foldCase s2 →
        getPokemonByTypeSql db s1 = getPokemonByTypeSql db s2)
    ∧ (∀ (db : DB) (s1 s2 : String), foldCase s1 = foldCase s2 →
        getAbilitiesByPokemonSql db s1 = getAbilitiesByPokemonSql db s2)
    ∧ (∀ s : String, foldCase s = foldCase "electric" →
        some "Pikachu" ∈ getPokemonByTypeSql pikaQueryDB s)
    ∧ cleanDatabase pikaQueryDB = pikaQueryDB
    ∧ getTrainersByPokemonSql pikaQueryDB "Pikachu" = [some "Ash"]
    ∧ getTrainersByPokemonSql pikaQueryDB "pikachu" = [] := by
  refine ⟨fun db s => ⟨rfl, rfl⟩, ?_, ?_, ?_, ?_, by decide, by decide, by decide⟩
  · intro db s1 s2 h
    have hn : ∀ n, nocaseMatch n s1 = nocaseMatch n s2 := fun n => nocaseMatch_congr n h
    unfold getPokemonByAbilitySql
    simp only [hn]
  · intro db s1 s2 h
    have hn : ∀ n, nocaseMatch n s1 = nocaseMatch n s2 := fun n => nocaseMatch_congr n h
    unfold getPokemonByTypeSql
    simp only [hn]
  · intro db s1 s2 h
    have hn : ∀ n, nocaseMatch n s1 = nocaseMatch n s2 := fun n => nocaseMatch_congr n h
    unfold getAbilitiesByPokemonSql
    simp only [hn]
  · intro s h
    have hn : ∀ n, nocaseMatch n s = nocaseMatch n "electric" := fun n => nocaseMatch_congr n h
    have he : getPokemonByTypeSql pikaQueryDB s = getPokemonByTypeSql pikaQueryDB "electric" := by
      unfold getPokemonByTypeSql
      simp only [hn]
    rw [he]
    decide

/-- Witness for C5: the dead SQL's case-insensitive operations applied at
concrete differently-cased arguments, and its Pikachu-by-type row set at
upper case. -/
theorem reads_case_insensitive_witness :
    getPokemonByAbilitySql pikaQueryDB "STATIC" = getPokemonByAbilitySql pikaQueryDB "static"
      ∧ some "Pikachu" ∈ getPokemonByTypeSql pikaQueryDB "ELECTRIC" :=
  ⟨reads_error_and_dead_sql_case_insensitive_except_trainers.2.1
      pikaQueryDB "STATIC" "static" (by decide),
    reads_error_and_dead_sql_case_insensitive_except_trainers.2.2.2.2.1 "ELECTRIC" (by decide)⟩

/-- C5 counterexample.  On the cleaned store `pikaQueryDB` — which owns
"Pikachu" with type1 "Electric" — querying creatures-by-type with
"electric" does not return a list containing "Pikachu": the endpoint
answers HTTP 500 (the handler's cursor `TypeError` at line 204 precedes
its SQL) and returns no list at all. -/
theorem bytype_electric_returns_500_counterexample :
    getPokemonByTypeEndpoint true pikaQueryDB "electric" = .error 500 "Internal Server Error"
      ∧ ¬ ∃ l, getPokemonByTypeEndpoint true pikaQueryDB "electric" = .ok l
            ∧ some "Pikachu" ∈ l := by
  refine ⟨rfl, ?_⟩
  rintro ⟨l, h, -⟩
  have h2 : HttpResult.error 500 "Internal Server Error" = HttpResult.ok l := h
  exact HttpResult.noConfusion h2

/-- In the dead SQL, the claimed universal case-insensitivity fails too:
the trainers-by-creature SELECT distinguishes "Pikachu" from "pikachu" on
the cleaned store `pikaQueryDB`. -/
theorem trainers_dead_sql_case_sensitive :
    ¬ (∀ (db : DB) (s1 s2 : String), foldCase s1 = foldCase s2 →
        getTrainersByPokemonSql db s1 = getTrainersByPokemonSql db s2) := by
  intro h
  exact absurd (h pikaQueryDB "Pikachu" "pikachu" (by decide)) (by decide)

-- ### Post-cleaning casing shapes ###

theorem segPattern_capSeg_of_alpha {l : List Char} (hne : l ≠ [])
    (hall : l.all isAlpha = true) : segPattern (capSeg l) = true := by
  cases l with
  | nil => exact absurd rfl hne
  | cons c cs =>
    rw [List.all_cons, Bool.and_eq_true] at hall
    show (isUpperAlpha (asciiUpper c) && (cs.map asciiLower).all isLowerAlpha) = true
    rw [Bool.and_eq_true]
    constructor
    · exact isUpperAlpha_asciiUpper_of_alpha hall.1
    · rw [List.all_map]
      rw [List.all_eq_true] at hall ⊢
      intro x hx
      exact isLowerAlpha_asciiLower_of_alpha (hall.2 x hx)

theorem matchesAbilityPattern_titleCase {s : String}
    (h : (splitHyphen s.data).all (fun seg => !seg.isEmpty && seg.all isAlpha) = true) :
    matchesAbilityPattern (titleCaseHyphenated s) = true := by
  unfold matchesAbilityPattern titleCaseHyphenated
  show ((splitHyphen (joinHyphen ((splitHyphen s.data).map capSeg))).all segPattern) = true
  rw [splitHyphen_joinHyphen ((splitHyphen s.data).map capSeg)
      (by simpa using splitHyphen_ne_nil s.data)
      (by
        intro seg hseg
        rcases List.mem_map.mp hseg with ⟨x, hx, hxe⟩
        exact hxe ▸ capSeg_no_hyphen (splitHyphen_no_hyphen s.data x hx))]
  rw [List.all_map, List.all_eq_true]
  rw [List.all_eq_true] at h
  intro seg hseg
  have h2 := h seg hseg
  rw [Bool.and_eq_true] at h2
  exact segPattern_capSeg_of_alpha (by simpa using h2.1) h2.2

/-- C9 (amended).  When every pre-cleaning Type name is a nonempty string
of ASCII letters and every pre-cleaning Ability name consists of nonempty
ASCII-letter segments joined by hyphens, then after cleaning every Type
name matches `^[A-Z][a-z]*$` and every Ability name matches
`^([A-Z][a-z]*)(-[A-Z][a-z]*)*$`.  (Without the proviso the claim fails:
cleaning only recases characters, so a name like "fire2" becomes "Fire2"
and matches neither regex.) -/
theorem clean_names_match_regexes_of_wellformed_input :
    ∀ db : DB,
      (∀ t ∈ db.types, ∃ s, t.name = some s ∧ s.data ≠ [] ∧ s.data.all isAlpha = true) →
      (∀ a ∈ db.abilities, ∃ s, a.name = some s ∧
        (splitHyphen s.data).all (fun seg => !seg.isEmpty && seg.all isAlpha) = true) →
      (∀ t ∈ (cleanDatabase db).types, ∃ s, t.name = some s ∧ matchesTypePattern s = true)
        ∧ (∀ a ∈ (cleanDatabase db).abilities, ∃ s, a.name = some s ∧ matchesAbilityPattern s = true) := by
  intro db htypes habilities
  constructor
  · intro t ht
    have hchar : (cleanDatabase db).types
        = (keepMinPerKey (fun t : TypeRow => t.name) (fun t => t.id) db.types).map
            (fun t => { t with name := t.name.map capitalize }) := rfl
    rw [hchar] at ht
    rcases List.mem_map.mp ht with ⟨t0, ht0, hte⟩
    have ht0m : t0 ∈ db.types := (keepMinPerKey_sublist _ _ db.types).mem ht0
    rcases htypes t0 ht0m with ⟨s, hs, hne, hall⟩
    refine ⟨capitalize s, ?_, ?_⟩
    · rw [← hte]
      show t0.name.map capitalize = some (capitalize s)
      rw [hs]
      rfl
    · exact segPattern_capSeg_of_alpha hne hall
  · intro a ha
    have hchar : (cleanDatabase db).abilities
        = (((keepMinPerKey (fun a : AbilityRow => a.name) (fun a => a.id) db.abilities).filter
              (fun a => decide (a.name ≠ some "Remove this ability"))).map
            (fun a => { a with name := fixAbilityName a.name })).map
            (fun a => match a.name with
              | none => a
              | some s => { a with name := some (titleCaseHyphenated s) }) := rfl
    rw [hchar] at ha
    rcases List.mem_map.mp ha with ⟨a1, ha1, hae⟩
    rcases List.mem_map.mp ha1 with ⟨a0, ha0, ha1e⟩
    have ha0m : a0 ∈ db.abilities :=
      (keepMinPerKey_sublist _ _ db.abilities).mem (List.mem_filter.mp ha0).1
    rcases habilities a0 ha0m with ⟨s, hs, hseg⟩
    have hfix : ∃ s1, fixAbilityName a0.name = some s1
        ∧ (splitHyphen s1.data).all (fun seg => !seg.isEmpty && seg.all isAlpha) = true := by
      rw [hs]
      unfold fixAbilityName
      by_cases h1 : (some s : Option String) = some "static"
      · rw [if_pos h1]; exact ⟨"Static", rfl, by decide⟩
      · rw [if_neg h1]
        by_cases h2 : (some s : Option String) = some "gras"
        · rw [if_pos h2]; exact ⟨"Grass", rfl, by decide⟩
        · rw [if_neg h2]
          by_cases h3 : (some s : Option String) = some "overgrow"
          · rw [if_pos h3]; exact ⟨"Overgrow", rfl, by decide⟩
          · rw [if_neg h3]
            by_cases h4 : (some s : Option String) = some "Torrent"
            · rw [if_pos h4]; exact ⟨"Torrent", rfl, by decide⟩
            · rw [if_neg h4]; exact ⟨s, rfl, hseg⟩
    rcases hfix with ⟨s1, hs1, hseg1⟩
    have ha1name : a1.name = some s1 := by
      rw [← ha1e]
      exact hs1
    refine ⟨titleCaseHyphenated s1, ?_, matchesAbilityPattern_titleCase hseg1⟩
    rw [← hae, ha1name]

/-- Witness for C9: the well-formed store `pikaQueryDB` (Type "Electric",
Ability "Static") satisfies both regex conclusions after cleaning. -/
theorem clean_names_match_regexes_witness :
    (∀ t ∈ (cleanDatabase pikaQueryDB).types, ∃ s, t.name = some s ∧ matchesTypePattern s = true)
      ∧ (∀ a ∈ (cleanDatabase pikaQueryDB).abilities, ∃ s, a.name = some s ∧ matchesAbilityPattern s = true) :=
  clean_names_match_regexes_of_wellformed_input pikaQueryDB (by decide) (by decide)

/-- C9 counterexample.  On the concrete store `typeDigitDB` cleaning maps
the Type name "fire2" to "Fire2", which does not match `^[A-Z][a-z]*$`, so
the claim as stated (over every starting dataset) is false. -/
theorem casing_regex_counterexample :
    (cleanDatabase typeDigitDB).types = [⟨1, some "Fire2"⟩]
      ∧ matchesTypePattern "Fire2" = false := by
  exact ⟨by decide, by decide⟩

-- ### Ingestion success path ###

/-- C4 (code bug).  No ingest ever succeeds: with a live connection the
handler raises `TypeError` at `with conn.cursor()` (line 266) before any
SQL, responds HTTP 500 "Internal server error.", creates no row in any
table and returns no `inserted_ids`; in particular the claim's concrete
scenario — ingesting the locally absent "pikachu" into the cleaned store
`electricStoreDB` with collaborator reply abilities=["static"],
types=["electric"] — creates nothing and leaves the store unchanged. -/
theorem ingest_never_succeeds :
    (∀ (c : Bool) (db : DB) (n : String) (lk : Option LookupResult) (pick : Nat),
        (addTrainerPokemonAbilitiesEndpoint c db n lk pick).2 = db
          ∧ ∀ v, (addTrainerPokemonAbilitiesEndpoint c db n lk pick).1 ≠ .ok v)
      ∧ addTrainerPokemonAbilitiesEndpoint true electricStoreDB "pikachu"
            (some ⟨["static"], ["electric"]⟩) 0
          = (.error 500 "Internal server error.", electricStoreDB) := by
  refine ⟨?_, rfl⟩
  intro c db n lk pick
  cases c with
  | false =>
    refine ⟨rfl, fun v h => ?_⟩
    have h2 : HttpResult.error 500 "Database connection error." = HttpResult.ok v := h
    exact HttpResult.noConfusion h2
  | true =>
    refine ⟨rfl, fun v h => ?_⟩
    have h2 : HttpResult.error 500 "Internal server error." = HttpResult.ok v := h
    exact HttpResult.noConfusion h2

/-- The success path of the ingest handler's dead code (never reached):
had the SQL run on a store where no creature has the requested name, at
least one trainer exists, and every join row references an existing
creature (without which a pre-existing junk join row aimed at the
about-to-be-assigned rowid would absorb the insert), ingesting with
lookup reply abilities=["static"], types=["electric"] would create
exactly one new Creature row, one new Type row (if "electric" is absent),
one new Ability row (if "static" is absent), and one new join row,
returning the non-empty `inserted_ids` list holding exactly the
identifier of the newly inserted join row. -/
theorem ingest_success_creates_one_row_each :
    ∀ (db : DB) (n : String) (pick : Nat),
      (∀ p ∈ db.pokemon, p.name ≠ some n) →
      db.trainers ≠ [] →
      (∀ j ∈ db.tpa, ∃ p ∈ db.pokemon, j.pokemon_id = p.id) →
      ((addTrainerPokemonAbilitiesSql db n (some ⟨["static"], ["electric"]⟩) pick).1
          = .success ("Abilities for " ++ n ++ " added successfully.")
              [freshId (db.tpa.map (fun j => j.id))])
      ∧ ((addTrainerPokemonAbilitiesSql db n (some ⟨["static"], ["electric"]⟩) pick).2.pokemon.length
          = db.pokemon.length + 1)
      ∧ ((addTrainerPokemonAbilitiesSql db n (some ⟨["static"], ["electric"]⟩) pick).2.types.length
          = db.types.length
            + (if (db.types.find? (fun t => decide (t.name = some "electric"))).isSome then 0 else 1))
      ∧ ((addTrainerPokemonAbilitiesSql db n (some ⟨["static"], ["electric"]⟩) pick).2.abilities.length
          = db.abilities.length
            + (if (db.abilities.find? (fun r => decide (r.name = some "static"))).isSome then 0 else 1))
      ∧ ((addTrainerPokemonAbilitiesSql db n (some ⟨["static"], ["electric"]⟩) pick).2.tpa.length
          = db.tpa.length + 1)
      ∧ ((addTrainerPokemonAbilitiesSql db n (some ⟨["static"], ["electric"]⟩) pick).2.trainers
          = db.trainers)
      ∧ (∀ j ∈ db.tpa, j.id ≠ freshId (db.tpa.map (fun j => j.id))) := by
  intro db n pick hnabs htr hri
  have hfindp : db.pokemon.find? (fun p => decide (p.name = some n)) = none :=
    List.find?_eq_none.mpr (fun x hx => by simpa using hnabs x hx)
  have hfj : ∀ (tid aid : Nat),
      db.tpa.find? (fun j => decide (j.trainer_id = tid
        ∧ j.pokemon_id = freshId (db.pokemon.map (fun p => p.id)) ∧ j.ability_id = aid)) = none := by
    intro tid aid
    apply List.find?_eq_none.mpr
    intro j hj
    simp only [decide_eq_true_eq]
    rintro ⟨h1, h2, h3⟩
    rcases hri j hj with ⟨p, hp, hpe⟩
    have hlt : p.id < freshId (db.pokemon.map (fun p => p.id)) :=
      lt_freshId_of_mem (List.mem_map_of_mem (fun p : PokemonRow => p.id) hp)
    rw [hpe] at h2
    omega
  have hnew : ∀ j ∈ db.tpa, j.id ≠ freshId (db.tpa.map (fun j => j.id)) := by
    intro j hj he
    have hlt : j.id < freshId (db.tpa.map (fun j => j.id)) :=
      lt_freshId_of_mem (List.mem_map_of_mem (fun j : TpaRow => j.id) hj)
    omega
  cases htrs : db.trainers with
  | nil => exact absurd htrs htr
  | cons t ts =>
    cases hfe : db.types.find? (fun t => decide (t.name = some "electric")) with
    | some te =>
      cases hfa : db.abilities.find? (fun r => decide (r.name = some "static")) with
      | some ar =>
        have hambient : addTrainerPokemonAbilitiesSql db n (some ⟨["static"], ["electric"]⟩) pick
            = (.success ("Abilities for " ++ n ++ " added successfully.")
                  [freshId (db.tpa.map (fun j => j.id))],
                { db with
                  pokemon := db.pokemon
                    ++ [⟨freshId (db.pokemon.map (fun p => p.id)), some n, some te.id, none⟩],
                  tpa := db.tpa
                    ++ [⟨freshId (db.tpa.map (fun j => j.id)),
                         ((t :: ts).get ⟨pick % (ts.length + 1), Nat.mod_lt _ (Nat.succ_pos _)⟩).id,
                         freshId (db.pokemon.map (fun p => p.id)), ar.id⟩] }) := by
          simp only [addTrainerPokemonAbilitiesSql, hfindp, List.getElem?_cons_zero, List.getElem?_cons_succ, List.getElem?_nil, Option.isSome_none, Bool.false_eq_true,
            if_false, getOrCreateType, hfe, htrs, List.foldl_cons, List.foldl_nil,
            insertAbilityAndJoin, hfa, Option.isSome_some, if_true, hfj, List.nil_append]
        rw [hambient]
        refine ⟨rfl, by simp, by simp, by simp, by simp, htrs, hnew⟩
      | none =>
        have hambient : addTrainerPokemonAbilitiesSql db n (some ⟨["static"], ["electric"]⟩) pick
            = (.success ("Abilities for " ++ n ++ " added successfully.")
                  [freshId (db.tpa.map (fun j => j.id))],
                { db with
                  abilities := db.abilities
                    ++ [⟨freshId (db.abilities.map (fun r => r.id)), some "static"⟩],
                  pokemon := db.pokemon
                    ++ [⟨freshId (db.pokemon.map (fun p => p.id)), some n, some te.id, none⟩],
                  tpa := db.tpa
                    ++ [⟨freshId (db.tpa.map (fun j => j.id)),
                         ((t :: ts).get ⟨pick % (ts.length + 1), Nat.mod_lt _ (Nat.succ_pos _)⟩).id,
                         freshId (db.pokemon.map (fun p => p.id)),
                         freshId (db.abilities.map (fun r => r.id))⟩] }) := by
          simp only [addTrainerPokemonAbilitiesSql, hfindp, List.getElem?_cons_zero, List.getElem?_cons_succ, List.getElem?_nil, Option.isSome_none, Bool.false_eq_true,
            if_false, getOrCreateType, hfe, htrs, List.foldl_cons, List.foldl_nil,
            insertAbilityAndJoin, hfa, List.find?_append, Option.none_or, hfj, List.nil_append]
          simp [List.find?]
        rw [hambient]
        refine ⟨rfl, by simp, by simp, by simp, by simp, htrs, hnew⟩
    | none =>
      cases hfa : db.abilities.find? (fun r => decide (r.name = some "static")) with
      | some ar =>
        have hambient : addTrainerPokemonAbilitiesSql db n (some ⟨["static"], ["electric"]⟩) pick
            = (.success ("Abilities for " ++ n ++ " added successfully.")
                  [freshId (db.tpa.map (fun j => j.id))],
                { db with
                  types := db.types ++ [⟨freshId (db.types.map (fun t => t.id)), some "electric"⟩],
                  pokemon := db.pokemon
                    ++ [⟨freshId (db.pokemon.map (fun p => p.id)), some n,
                         some (freshId (db.types.map (fun t => t.id))), none⟩],
                  tpa := db.tpa
                    ++ [⟨freshId (db.tpa.map (fun j => j.id)),
                         ((t :: ts).get ⟨pick % (ts.length + 1), Nat.mod_lt _ (Nat.succ_pos _)⟩).id,
                         freshId (db.pokemon.map (fun p => p.id)), ar.id⟩] }) := by
          simp only [addTrainerPokemonAbilitiesSql, hfindp, List.getElem?_cons_zero, List.getElem?_cons_succ, List.getElem?_nil, Option.isSome_none, Bool.false_eq_true,
            if_false, getOrCreateType, hfe, htrs, List.foldl_cons, List.foldl_nil,
            insertAbilityAndJoin, hfa, Option.isSome_some, if_true, hfj, List.nil_append]
        rw [hambient]
        refine ⟨rfl, by simp, by simp, by simp, by simp, htrs, hnew⟩
      | none =>
        have hambient : addTrainerPokemonAbilitiesSql db n (some ⟨["static"], ["electric"]⟩) pick
            = (.success ("Abilities for " ++ n ++ " added successfully.")
                  [freshId (db.tpa.map (fun j => j.id))],
                { db with
                  types := db.types ++ [⟨freshId (db.types.map (fun t => t.id)), some "electric"⟩],
                  abilities := db.abilities
                    ++ [⟨freshId (db.abilities.map (fun r => r.id)), some "static"⟩],
                  pokemon := db.pokemon
                    ++ [⟨freshId (db.pokemon.map (fun p => p.id)), some n,
                         some (freshId (db.types.map (fun t => t.id))), none⟩],
                  tpa := db.tpa
                    ++ [⟨freshId (db.tpa.map (fun j => j.id)),
                         ((t :: ts).get ⟨pick % (ts.length + 1), Nat.mod_lt _ (Nat.succ_pos _)⟩).id,
                         freshId (db.pokemon.map (fun p => p.id)),
                         freshId (db.abilities.map (fun r => r.id))⟩] }) := by
          simp only [addTrainerPokemonAbilitiesSql, hfindp, List.getElem?_cons_zero, List.getElem?_cons_succ, List.getElem?_nil, Option.isSome_none, Bool.false_eq_true,
            if_false, getOrCreateType, hfe, htrs, List.foldl_cons, List.foldl_nil,
            insertAbilityAndJoin, hfa, List.find?_append, Option.none_or, hfj, List.nil_append]
          simp [List.find?]
        rw [hambient]
        refine ⟨rfl, by simp, by simp, by simp, by simp, htrs, hnew⟩

/-- Instance of the dead success path: "pikachu" against `pikaQueryDB`
(which owns "Pikachu" but not "pikachu", has a trainer, and whose single
join row references the existing creature 1). -/
theorem ingest_success_dead_sql_instance :
    ((addTrainerPokemonAbilitiesSql pikaQueryDB "pikachu" (some ⟨["static"], ["electric"]⟩) 0).1
        = .success "Abilities for pikachu added successfully." [2])
      ∧ ((addTrainerPokemonAbilitiesSql pikaQueryDB "pikachu" (some ⟨["static"], ["electric"]⟩) 0).2.pokemon.length
          = pikaQueryDB.pokemon.length + 1) := by
  have h := ingest_success_creates_one_row_each pikaQueryDB "pikachu" 0
    (by decide) (by decide) (by decide)
  exact ⟨h.1, h.2.1⟩

/-- An anomaly of the dead success path: on `junkJoinDB` — whose
pre-existing join row dangles at pokemon id 2, exactly the rowid the new
creature receives — the same ingest SQL would report success yet insert
no join row at all and return an EMPTY `inserted_ids`, so even the dead
code does not meet the claim over every starting store. -/
theorem ingest_dead_sql_junk_join_anomaly :
    ((addTrainerPokemonAbilitiesSql junkJoinDB "pikachu" (some ⟨["static"], ["electric"]⟩) 0).1
        = .success "Abilities for pikachu added successfully." [])
      ∧ ((addTrainerPokemonAbilitiesSql junkJoinDB "pikachu" (some ⟨["static"], ["electric"]⟩) 0).2.tpa
          = junkJoinDB.tpa) := by
  exact ⟨by decide, by decide⟩

-- ### What a successful ingest preserves ###

theorem getOrCreateType_pairwise {tn : Option String} {ts : List TypeRow}
    (hp : ts.Pairwise (fun a b => a.name ≠ b.name)) :
    ((getOrCreateType tn ts).2).Pairwise (fun a b => a.name ≠ b.name) := by
  cases tn with
  | none => exact hp
  | some s =>
    cases hfe : ts.find? (fun t => decide (t.name = some s)) with
    | some t =>
      simp only [getOrCreateType, hfe]
      exact hp
    | none =>
      simp only [getOrCreateType, hfe]
      rw [List.pairwise_append]
      refine ⟨hp, List.pairwise_singleton _ _, ?_⟩
      intro a ha b hb
      rw [List.mem_singleton] at hb
      subst hb
      show a.name ≠ some s
      simpa using List.find?_eq_none.mp hfe a ha

theorem insertAbilityAndJoin_pairwise (tid pid : Nat)
    (st : List Nat × List AbilityRow × List TpaRow) (a : String)
    (h1 : st.2.1.Pairwise (fun x y => x.name ≠ y.name))
    (h2 : st.2.2.Pairwise (fun x y => (x.trainer_id, x.pokemon_id, x.ability_id)
        ≠ (y.trainer_id, y.pokemon_id, y.ability_id))) :
    (insertAbilityAndJoin tid pid st a).2.1.Pairwise (fun x y => x.name ≠ y.name)
      ∧ (insertAbilityAndJoin tid pid st a).2.2.Pairwise
          (fun x y => (x.trainer_id, x.pokemon_id, x.ability_id)
            ≠ (y.trainer_id, y.pokemon_id, y.ability_id)) := by
  obtain ⟨ids, ab, tp⟩ := st
  simp only at h1 h2
  have hab2 : (if (ab.find? (fun r => decide (r.name = some a))).isSome then ab
      else ab ++ [{ id := freshId (ab.map (fun r => r.id)), name := some a }]).Pairwise
        (fun x y => x.name ≠ y.name) := by
    by_cases hfa : (ab.find? (fun r => decide (r.name = some a))).isSome = true
    · rw [if_pos hfa]
      exact h1
    · rw [if_neg hfa]
      rw [List.pairwise_append]
      refine ⟨h1, List.pairwise_singleton _ _, ?_⟩
      intro x hx y hy
      rw [List.mem_singleton] at hy
      subst hy
      show x.name ≠ some a
      have hfn := Option.not_isSome_iff_eq_none.mp hfa
      simpa using List.find?_eq_none.mp hfn x hx
  cases hfind : (if (ab.find? (fun r => decide (r.name = some a))).isSome then ab
      else ab ++ [{ id := freshId (ab.map (fun r => r.id)), name := some a }]).find?
        (fun r => decide (r.name = some a)) with
  | none =>
    have hval : insertAbilityAndJoin tid pid (ids, ab, tp) a
        = (ids, (if (ab.find? (fun r => decide (r.name = some a))).isSome then ab
            else ab ++ [{ id := freshId (ab.map (fun r => r.id)), name := some a }]), tp) := by
      simp only [insertAbilityAndJoin, hfind]
    rw [hval]
    exact ⟨hab2, h2⟩
  | some arow =>
    cases hjf : (tp.find? (fun j => decide (j.trainer_id = tid ∧ j.pokemon_id = pid
        ∧ j.ability_id = arow.id))).isSome with
    | true =>
      have hval : insertAbilityAndJoin tid pid (ids, ab, tp) a
          = (ids, (if (ab.find? (fun r => decide (r.name = some a))).isSome then ab
              else ab ++ [{ id := freshId (ab.map (fun r => r.id)), name := some a }]), tp) := by
        simp only [insertAbilityAndJoin, hfind, hjf, if_true]
      rw [hval]
      exact ⟨hab2, h2⟩
    | false =>
      have hval : insertAbilityAndJoin tid pid (ids, ab, tp) a
          = (ids ++ [freshId (tp.map (fun j => j.id))],
              (if (ab.find? (fun r => decide (r.name = some a))).isSome then ab
                else ab ++ [{ id := freshId (ab.map (fun r => r.id)), name := some a }]),
              tp ++ [⟨freshId (tp.map (fun j => j.id)), tid, pid, arow.id⟩]) := by
        simp only [insertAbilityAndJoin, hfind, hjf, Bool.false_eq_true, if_false]
      rw [hval]
      refine ⟨hab2, ?_⟩
      rw [List.pairwise_append]
      refine ⟨h2, List.pairwise_singleton _ _, ?_⟩
      intro x hx y hy
      rw [List.mem_singleton] at hy
      subst hy
      intro hkey
      have hfn := Option.not_isSome_iff_eq_none.mp (by rw [hjf]; exact Bool.false_ne_true)
      have hnot := List.find?_eq_none.mp hfn x hx
      rw [Prod.mk.injEq, Prod.mk.injEq] at hkey
      exact hnot (by simpa using And.intro hkey.1 (And.intro hkey.2.1 hkey.2.2))

theorem insert_loop_pairwise (tid pid : Nat) :
    ∀ (names : List String) (st : List Nat × List AbilityRow × List TpaRow),
      st.2.1.Pairwise (fun x y => x.name ≠ y.name) →
      st.2.2.Pairwise (fun x y => (x.trainer_id, x.pokemon_id, x.ability_id)
          ≠ (y.trainer_id, y.pokemon_id, y.ability_id)) →
      (names.foldl (insertAbilityAndJoin tid pid) st).2.1.Pairwise (fun x y => x.name ≠ y.name)
        ∧ (names.foldl (insertAbilityAndJoin tid pid) st).2.2.Pairwise
            (fun x y => (x.trainer_id, x.pokemon_id, x.ability_id)
              ≠ (y.trainer_id, y.pokemon_id, y.ability_id)) := by
  intro names
  induction names with
  | nil => intro st h1 h2; exact ⟨h1, h2⟩
  | cons a names ih =>
    intro st h1 h2
    rw [List.foldl_cons]
    have hstep := insertAbilityAndJoin_pairwise tid pid st a h1 h2
    exact ih (insertAbilityAndJoin tid pid st a) hstep.1 hstep.2

/-- C3 (code bug).  As executed the store is frozen: every ingest call
fails before its first SQL statement (the cursor `TypeError` at line 266,
or the connection failure) and the transaction rolls back, so no
subsequent operation modifies any table — the post-cleaning invariants
survive only because nothing can act, and the claim's "successful ingest
of any creature name" names an outcome no call reaches.  Worse, the SQL
the ingest handler was written to run would itself break the case
invariants: on the cleaned store `electricStoreDB` its exact-name
get-or-create lookup inserts a second Type row "electric" next to
"Electric", violating case-normalized name uniqueness. -/
theorem store_frozen_and_dead_sql_breaks_invariants :
    (∀ (c : Bool) (db : DB) (n : String) (lk : Option LookupResult) (pick : Nat),
        (addTrainerPokemonAbilitiesEndpoint c db n lk pick).2 = db)
      ∧ ((addTrainerPokemonAbilitiesSql electricStoreDB "pikachu"
            (some ⟨["static"], ["electric"]⟩) 0).2.types
          = [⟨1, some "Electric"⟩, ⟨2, some "electric"⟩])
      ∧ ¬ ((addTrainerPokemonAbilitiesSql electricStoreDB "pikachu"
            (some ⟨["static"], ["electric"]⟩) 0).2.types.Pairwise
              (fun a b => nocaseKey a.name ≠ nocaseKey b.name)) := by
  refine ⟨?_, by decide, by decide⟩
  intro c db n lk pick
  cases c <;> rfl

/-- What the dead success path would preserve (never reached): had the
SQL run, a successful ingest would keep exact-name uniqueness of Type and
Ability rows, creature-key uniqueness, join-key uniqueness, and leave the
Trainer table untouched; it would NOT preserve the case-insensitive name
uniqueness or the canonical display casing of Type and Ability names,
because its get-or-create lookups compare names exactly, so a lower-case
collaborator reply inserts a case-variant duplicate next to the canonical
row. -/
theorem ingest_success_preserves_uniqueness :
    ∀ (db : DB) (n : String) (lk : Option LookupResult) (pick : Nat) (msg : String)
      (ids : List Nat) (db2 : DB),
      db.types.Pairwise (fun a b => a.name ≠ b.name) →
      db.abilities.Pairwise (fun a b => a.name ≠ b.name) →
      db.pokemon.Pairwise (fun a b => (a.name, a.type1_id, a.type2_id)
          ≠ (b.name, b.type1_id, b.type2_id)) →
      db.tpa.Pairwise (fun a b => (a.trainer_id, a.pokemon_id, a.ability_id)
          ≠ (b.trainer_id, b.pokemon_id, b.ability_id)) →
      addTrainerPokemonAbilitiesSql db n lk pick = (.success msg ids, db2) →
      db2.types.Pairwise (fun a b => a.name ≠ b.name)
        ∧ db2.abilities.Pairwise (fun a b => a.name ≠ b.name)
        ∧ db2.pokemon.Pairwise (fun a b => (a.name, a.type1_id, a.type2_id)
            ≠ (b.name, b.type1_id, b.type2_id))
        ∧ db2.tpa.Pairwise (fun a b => (a.trainer_id, a.pokemon_id, a.ability_id)
            ≠ (b.trainer_id, b.pokemon_id, b.ability_id))
        ∧ db2.trainers = db.trainers := by
  intro db n lk pick msg ids db2 ht ha hp hj heq
  unfold addTrainerPokemonAbilitiesSql at heq
  by_cases hfp : (db.pokemon.find? (fun p => decide (p.name = some n))).isSome = true
  · rw [if_pos hfp] at heq
    exact absurd (congrArg Prod.fst heq) (by simp)
  · rw [if_neg hfp] at heq
    cases lk with
    | none => exact absurd (congrArg Prod.fst heq) (by simp)
    | some data =>
      have hfn : db.pokemon.find? (fun p => decide (p.name = some n)) = none :=
        Option.not_isSome_iff_eq_none.mp hfp
      cases htrs : db.trainers with
      | nil =>
        simp only [htrs, hfn] at heq
        exact absurd (congrArg Prod.fst heq) (by simp)
      | cons t ts =>
        simp only [htrs, hfn] at heq
        have hdb2 := congrArg Prod.snd heq
        simp only at hdb2
        rw [← hdb2]
        refine ⟨getOrCreateType_pairwise (getOrCreateType_pairwise ht), ?_, ?_, ?_, rfl⟩
        · exact (insert_loop_pairwise _ _ data.abilities ([], db.abilities, db.tpa) ha hj).1
        · rw [List.pairwise_append]
          refine ⟨hp, List.pairwise_singleton _ _, ?_⟩
          intro x hx y hy
          rw [List.mem_singleton] at hy
          subst hy
          intro hkey
          rw [Prod.mk.injEq, Prod.mk.injEq] at hkey
          have hxn : x.name ≠ some n := by simpa using List.find?_eq_none.mp hfn x hx
          exact hxn (by simpa using hkey.1)
        · exact (insert_loop_pairwise _ _ data.abilities ([], db.abilities, db.tpa) ha hj).2

/-- Instance of the dead preservation facts: the dead-code ingest of
"pikachu" into `pikaQueryDB` keeps exact-name uniqueness of types and
join-key uniqueness. -/
theorem ingest_preserves_uniqueness_instance :
    ((addTrainerPokemonAbilitiesSql pikaQueryDB "pikachu" (some ⟨["static"], ["electric"]⟩) 0).2).types.Pairwise
        (fun a b => a.name ≠ b.name)
      ∧ ((addTrainerPokemonAbilitiesSql pikaQueryDB "pikachu" (some ⟨["static"], ["electric"]⟩) 0).2).tpa.Pairwise
          (fun a b => (a.trainer_id, a.pokemon_id, a.ability_id)
            ≠ (b.trainer_id, b.pokemon_id, b.ability_id)) := by
  have h := ingest_success_preserves_uniqueness pikaQueryDB "pikachu"
    (some ⟨["static"], ["electric"]⟩) 0 "Abilities for pikachu added successfully." [2]
    ((addTrainerPokemonAbilitiesSql pikaQueryDB "pikachu" (some ⟨["static"], ["electric"]⟩) 0).2)
    (by decide) (by decide) (by decide) (by decide) (by decide)
  exact ⟨h.1, h.2.2.2.1⟩

/-- Detail of the dead-code invariant breakage: `electricStoreDB` is a
cleaned store (a fixed point of the cleaning pass) satisfying the
post-cleaning invariants; the dead ingest SQL, with a collaborator reply
carrying the lower-case type name "electric", inserts a second Type row
"electric" next to "Electric", violating both the case-normalized-name
uniqueness invariant and the canonical display casing invariant. -/
theorem ingest_dead_sql_breaks_case_invariants :
    cleanDatabase electricStoreDB = electricStoreDB
      ∧ electricStoreDB.types.Pairwise (fun a b => nocaseKey a.name ≠ nocaseKey b.name)
      ∧ (∀ t ∈ electricStoreDB.types, ∃ s, t.name = some s ∧ matchesTypePattern s = true)
      ∧ ((addTrainerPokemonAbilitiesSql electricStoreDB "pikachu"
            (some ⟨["static"], ["electric"]⟩) 0).1
          = .success "Abilities for pikachu added successfully." [1])
      ∧ ((addTrainerPokemonAbilitiesSql electricStoreDB "pikachu"
            (some ⟨["static"], ["electric"]⟩) 0).2.types
          = [⟨1, some "Electric"⟩, ⟨2, some "electric"⟩])
      ∧ ¬ ((addTrainerPokemonAbilitiesSql electricStoreDB "pikachu"
            (some ⟨["static"], ["electric"]⟩) 0).2.types.Pairwise
              (fun a b => nocaseKey a.name ≠ nocaseKey b.name))
      ∧ ¬ (∀ t ∈ (addTrainerPokemonAbilitiesSql electricStoreDB "pikachu"
            (some ⟨["static"], ["electric"]⟩) 0).2.types,
              ∃ s, t.name = some s ∧ matchesTypePattern s = true) := by
  refine ⟨by decide, by decide, ?_, by decide, by decide, by decide, ?_⟩
  · intro t ht
    have he := List.mem_singleton.mp ht
    subst he
    exact ⟨"Electric", rfl, by decide⟩
  · intro hall
    rcases hall ⟨2, some "electric"⟩ (by decide) with ⟨s, hs, hm⟩
    have hse : s = "electric" := (Option.some.inj hs).symm
    subst hse
    exact absurd hm (by decide)

-- ### Preservation machinery for the cleaning pass ###

theorem map_eq_self_of_id {α : Type _} {f : α → α} :
    ∀ {l : List α}, (∀ a ∈ l, f a = a) → l.map f = l := by
  intro l
  induction l with
  | nil => intro _; rfl
  | cons a t ih =>
    intro h
    rw [List.map_cons, h a (List.mem_cons_self a t), ih (fun b hb => h b (List.mem_cons_of_mem a hb))]

theorem pairwise_key_map {α β : Type _} {κ : α → β} {f : α → α} {l : List α}
    (hf : ∀ r ∈ l, κ (f r) = κ r) (hp : l.Pairwise (fun a b => κ a ≠ κ b)) :
    (l.map f).Pairwise (fun a b => κ a ≠ κ b) := by
  rw [List.pairwise_map]
  exact hp.imp_of_mem (fun {a b} ha hb h => by
    rw [hf a ha, hf b hb]
    exact h)

theorem pairwise_name_of_nocase {α : Type _} {nameOf : α → Option String} {l : List α}
    (hp : l.Pairwise (fun a b => nocaseKey (nameOf a) ≠ nocaseKey (nameOf b))) :
    l.Pairwise (fun a b => nameOf a ≠ nameOf b) :=
  hp.imp (fun h he => h (congrArg nocaseKey he))

theorem nocaseKey_map_capitalize (n : Option String) :
    nocaseKey (n.map capitalize) = nocaseKey n := by
  cases n with
  | none => rfl
  | some s =>
    show some (foldCase (capitalize s)) = some (foldCase s)
    rw [foldCase_capitalize]

theorem nocaseKey_fixAbilityName {n : Option String} (h : n ≠ some "gras") :
    nocaseKey (fixAbilityName n) = nocaseKey n := by
  unfold fixAbilityName
  by_cases h1 : n = some "static"
  · rw [if_pos h1, h1]; decide
  · rw [if_neg h1, if_neg h]
    by_cases h3 : n = some "overgrow"
    · rw [if_pos h3, h3]; decide
    · rw [if_neg h3]
      by_cases h4 : n = some "Torrent"
      · rw [if_pos h4, h4]
      · rw [if_neg h4]

theorem nocaseKey_fixTrainerName (n : Option String) :
    nocaseKey (fixTrainerName n) = nocaseKey n := by
  unfold fixTrainerName
  by_cases h : n = some "misty"
  · rw [if_pos h, h]; decide
  · rw [if_neg h]

theorem fixTrainerName_not_misty (n : Option String) :
    fixTrainerName n ≠ some "misty" := by
  unfold fixTrainerName
  by_cases h : n = some "misty"
  · rw [if_pos h]; decide
  · rw [if_neg h]; exact h

theorem fixTrainerName_id_of {n : Option String} (h : n ≠ some "misty") :
    fixTrainerName n = n := if_neg h

theorem fixPokemonName_id_of {n : Option String} (h1 : n ≠ some "Pikuchu")
    (h2 : n ≠ some "Charmanderr") (h3 : n ≠ some "Bulbasuar") (h4 : n ≠ some "RATtata") :
    fixPokemonName n = n := by
  unfold fixPokemonName
  rw [if_neg h1, if_neg h2, if_neg h3, if_neg h4]

theorem fixPokemonName_not_misspelled (n : Option String) :
    fixPokemonName n ≠ some "Pikuchu" ∧ fixPokemonName n ≠ some "Charmanderr"
      ∧ fixPokemonName n ≠ some "Bulbasuar" ∧ fixPokemonName n ≠ some "RATtata" := by
  unfold fixPokemonName
  split_ifs with h1 h2 h3 h4
  · exact ⟨by decide, by decide, by decide, by decide⟩
  · exact ⟨by decide, by decide, by decide, by decide⟩
  · exact ⟨by decide, by decide, by decide, by decide⟩
  · exact ⟨by decide, by decide, by decide, by decide⟩
  · exact ⟨h1, h2, h3, h4⟩

theorem fixPokemonName_idem (n : Option String) :
    fixPokemonName (fixPokemonName n) = fixPokemonName n := by
  have h := fixPokemonName_not_misspelled n
  exact fixPokemonName_id_of h.1 h.2.1 h.2.2.1 h.2.2.2

theorem fixTrainerName_idem (n : Option String) :
    fixTrainerName (fixTrainerName n) = fixTrainerName n :=
  fixTrainerName_id_of (fixTrainerName_not_misty n)

theorem joinCapSeg_head_not_lower (ss : List (List Char)) {c : Char} {rest : List Char}
    (h : joinHyphen (ss.map capSeg) = c :: rest) : isLowerAlpha c = false := by
  cases ss with
  | nil => exact absurd h (by simp [joinHyphen])
  | cons s0 ss2 =>
    cases ss2 with
    | nil =>
      cases s0 with
      | nil => exact absurd h (by simp [joinHyphen, capSeg])
      | cons c0 cs0 =>
        have hc : asciiUpper c0 = c := by
          have h2 : capSeg (c0 :: cs0) = c :: rest := h
          rw [capSeg] at h2
          exact (List.cons.injEq _ _ _ _ ▸ h2).1
        rw [← hc]
        exact isLowerAlpha_asciiUpper c0
    | cons s1 ss3 =>
      cases s0 with
      | nil =>
        have hc : '-' = c := by
          have h2 : ([] : List Char) ++ '-' :: joinHyphen ((s1 :: ss3).map capSeg) = c :: rest := h
          rw [List.nil_append] at h2
          exact (List.cons.injEq _ _ _ _ ▸ h2).1
        rw [← hc]
        decide
      | cons c0 cs0 =>
        have hc : asciiUpper c0 = c := by
          have h2 : (asciiUpper c0 :: cs0.map asciiLower)
              ++ '-' :: joinHyphen ((s1 :: ss3).map capSeg) = c :: rest := h
          rw [List.cons_append] at h2
          exact (List.cons.injEq _ _ _ _ ▸ h2).1
        rw [← hc]
        exact isLowerAlpha_asciiUpper c0

theorem titleCase_ne_of_lower_head {s w : String} {c : Char} {rest : List Char}
    (hw : w.data = c :: rest) (hc : isLowerAlpha c = true) :
    titleCaseHyphenated s ≠ w := by
  intro he
  have hdata : joinHyphen ((splitHyphen s.data).map capSeg) = c :: rest := by
    have := congrArg String.data he
    simpa [titleCaseHyphenated, hw] using this
  rw [joinCapSeg_head_not_lower _ hdata] at hc
  exact Bool.false_ne_true hc

theorem fixAbilityName_titleCase (s : String) :
    fixAbilityName (some (titleCaseHyphenated s)) = some (titleCaseHyphenated s) := by
  unfold fixAbilityName
  rw [if_neg (fun he => titleCase_ne_of_lower_head (w := "static") rfl (by decide)
      (Option.some.inj he))]
  rw [if_neg (fun he => titleCase_ne_of_lower_head (w := "gras") rfl (by decide)
      (Option.some.inj he))]
  rw [if_neg (fun he => titleCase_ne_of_lower_head (w := "overgrow") rfl (by decide)
      (Option.some.inj he))]
  by_cases h4 : (some (titleCaseHyphenated s) : Option String) = some "Torrent"
  · rw [if_pos h4]
    exact h4.symm
  · rw [if_neg h4]

theorem repoint_body_id {ts : List TypeRow}
    (hnd : (ts.map (fun t => t.id)).Nodup)
    (hpw : ts.Pairwise (fun a b => a.name ≠ b.name))
    (hcanon : ∀ t ∈ ts, t.name.map capitalize = t.name)
    {p : PokemonRow}
    (hvalid : p.type2_id = none ∨ ∃ t ∈ ts, p.type2_id = some t.id ∧ t.name ≠ none) :
    (match p.type2_id with
      | none => p
      | some tid =>
        { p with type2_id := typeIdByName ts ((typeNameById ts tid).map capitalize) }) = p := by
  have inj : ∀ x ∈ ts, ∀ y ∈ ts, x.id = y.id → x = y := List.inj_on_of_nodup_map hnd
  cases hp2 : p.type2_id with
  | none => rfl
  | some tid =>
    rcases hvalid with hnone | ⟨t, htm, hte, htn⟩
    · rw [hp2] at hnone
      exact absurd hnone (by simp)
    · rw [hp2] at hte
      have hte2 : t.id = tid := (Option.some.inj hte).symm
      have hfindid : ts.find? (fun x => decide (x.id = tid)) = some t :=
        find?_eq_some_of_unique htm (by simpa using hte2)
          (fun x hx hpx => inj x hx t htm (by rw [hte2]; simpa using hpx))
      have hname : typeNameById ts tid = t.name := by
        show (match ts.find? (fun x => decide (x.id = tid)) with
          | none => none
          | some x => x.name) = t.name
        rw [hfindid]
      cases hts : t.name with
      | none => exact absurd hts htn
      | some s =>
        have hcap : capitalize s = s := by
          have hc := hcanon t htm
          rw [hts] at hc
          exact Option.some.inj hc
        have hfindname : ts.find? (fun x => decide (x.name = some s)) = some t :=
          find?_eq_some_of_unique htm (by simpa using hts)
            (fun x hx hpx => keyInj_of_pairwise hpw x hx t htm
              (by rw [hts]; simpa using hpx))
        have hid2 : typeIdByName ts (some s) = some t.id := by
          show (match ts.find? (fun x => decide (x.name = some s)) with
            | none => none
            | some x => some x.id) = some t.id
          rw [hfindname]
        show { p with type2_id := typeIdByName ts ((typeNameById ts tid).map capitalize) } = p
        rw [hname, hts]
        rw [show Option.map capitalize (some s) = some (capitalize s) from rfl, hcap, hid2, hte2,
          ← hp2]

theorem clean_types_eq (db : DB) : (cleanDatabase db).types
    = (keepMinPerKey (fun t : TypeRow => t.name) (fun t => t.id) db.types).map
        (fun t => { t with name := t.name.map capitalize }) := rfl

theorem clean_abilities_eq (db : DB) : (cleanDatabase db).abilities
    = (((keepMinPerKey (fun a : AbilityRow => a.name) (fun a => a.id) db.abilities).filter
          (fun a => decide (a.name ≠ some "Remove this ability"))).map
        (fun a => { a with name := fixAbilityName a.name })).map
        (fun a => match a.name with
          | none => a
          | some s => { a with name := some (titleCaseHyphenated s) }) := rfl

theorem clean_trainers_eq (db : DB) : (cleanDatabase db).trainers
    = ((keepMinPerKey (fun t : TrainerRow => t.name) (fun t => t.id) db.trainers).map
        (fun t => { t with name := fixTrainerName t.name })).filter
        (fun t => decide (t.name ≠ some "" ∧ t.name ≠ none)) := rfl

theorem clean_pokemon_eq (db : DB) : (cleanDatabase db).pokemon
    = ((keepMinPerKey (fun p : PokemonRow => (p.name, p.type1_id, p.type2_id)) (fun p => p.id)
          db.pokemon).map
        (fun p => match p.type2_id with
          | none => p
          | some tid =>
            { p with
                type2_id :=
                  typeIdByName
                    ((keepMinPerKey (fun t : TypeRow => t.name) (fun t => t.id) db.types).map
                      (fun t : TypeRow => { t with name := t.name.map capitalize }))
                    ((typeNameById
                        ((keepMinPerKey (fun t : TypeRow => t.name) (fun t => t.id) db.types).map
                          (fun t : TypeRow => { t with name := t.name.map capitalize })) tid).map
                      capitalize) })).map
        (fun p => { p with name := fixPokemonName p.name }) := rfl

theorem clean_types_canonical (db : DB) :
    ∀ t ∈ (cleanDatabase db).types, t.name.map capitalize = t.name := by
  intro t ht
  rw [clean_types_eq] at ht
  rcases List.mem_map.mp ht with ⟨t0, _, hte⟩
  rw [← hte]
  show (t0.name.map capitalize).map capitalize = t0.name.map capitalize
  cases t0.name with
  | none => rfl
  | some s =>
    show some (capitalize (capitalize s)) = some (capitalize s)
    rw [capitalize_idem]

theorem clean_abilities_canonical (db : DB) :
    ∀ a ∈ (cleanDatabase db).abilities,
      a.name = none ∨ ∃ s, a.name = some (titleCaseHyphenated s) := by
  intro a ha
  rw [clean_abilities_eq] at ha
  rcases List.mem_map.mp ha with ⟨a1, _, hae⟩
  cases h1 : a1.name with
  | none =>
    left
    have hb : (match a1.name with
        | none => a1
        | some s => { a1 with name := some (titleCaseHyphenated s) }) = a1 := by rw [h1]
    rw [← hae, hb, h1]
  | some s =>
    right
    refine ⟨s, ?_⟩
    have hb : (match a1.name with
        | none => a1
        | some s => { a1 with name := some (titleCaseHyphenated s) })
          = { a1 with name := some (titleCaseHyphenated s) } := by rw [h1]
    rw [← hae, hb]

theorem clean_trainers_shape (db : DB) :
    ∀ t ∈ (cleanDatabase db).trainers,
      fixTrainerName t.name = t.name ∧ t.name ≠ some "" ∧ t.name ≠ none := by
  intro t ht
  rw [clean_trainers_eq] at ht
  have hf := List.mem_filter.mp ht
  have hvalid : t.name ≠ some "" ∧ t.name ≠ none := by simpa using hf.2
  rcases List.mem_map.mp hf.1 with ⟨t0, _, hte⟩
  refine ⟨?_, hvalid⟩
  rw [← hte]
  show fixTrainerName (fixTrainerName t0.name) = fixTrainerName t0.name
  exact fixTrainerName_idem t0.name

theorem clean_pokemon_shape (db : DB) :
    ∀ p ∈ (cleanDatabase db).pokemon, fixPokemonName p.name = p.name := by
  intro p hp
  rw [clean_pokemon_eq] at hp
  rcases List.mem_map.mp hp with ⟨p1, _, hpe⟩
  rw [← hpe]
  show fixPokemonName (fixPokemonName p1.name) = fixPokemonName p1.name
  exact fixPokemonName_idem p1.name

/-- C1 (amended).  The cleaning pass is idempotent on every store whose
cleaned form has no two rows sharing an exact uniqueness key in any table,
pairwise-distinct type row ids, no sentinel-named ability, and type2
references that point at existing, named type rows.  (Without the proviso
a second run can delete further rows, because deduplication runs before
case-normalization: see the counterexample.) -/
theorem cleanDatabase_idempotent_of_separated :
    ∀ db : DB,
      (cleanDatabase db).types.Pairwise (fun a b => a.name ≠ b.name) →
      ((cleanDatabase db).types.map (fun t => t.id)).Nodup →
      (cleanDatabase db).abilities.Pairwise (fun a b => a.name ≠ b.name) →
      (cleanDatabase db).trainers.Pairwise (fun a b => a.name ≠ b.name) →
      (cleanDatabase db).pokemon.Pairwise (fun a b => (a.name, a.type1_id, a.type2_id)
          ≠ (b.name, b.type1_id, b.type2_id)) →
      (cleanDatabase db).tpa.Pairwise (fun a b => (a.trainer_id, a.pokemon_id, a.ability_id)
          ≠ (b.trainer_id, b.pokemon_id, b.ability_id)) →
      (∀ a ∈ (cleanDatabase db).abilities, a.name ≠ some "Remove this ability") →
      (∀ p ∈ (cleanDatabase db).pokemon, p.type2_id = none
        ∨ ∃ t ∈ (cleanDatabase db).types, p.type2_id = some t.id ∧ t.name ≠ none) →
      cleanDatabase (cleanDatabase db) = cleanDatabase db := by
  intro db q1 q1n q2 q3 q4 q5 q6 q7
  have hs1 : deleteDuplicateAbilities (cleanDatabase db) = cleanDatabase db := by
    unfold deleteDuplicateAbilities
    rw [keepMinPerKey_of_pairwise q2]
  have hs2 : deleteDuplicatePokemon (cleanDatabase db) = cleanDatabase db := by
    unfold deleteDuplicatePokemon
    rw [keepMinPerKey_of_pairwise q4]
  have hs3 : deleteDuplicateTpa (cleanDatabase db) = cleanDatabase db := by
    unfold deleteDuplicateTpa
    rw [keepMinPerKey_of_pairwise q5]
  have hs4 : deleteDuplicateTrainers (cleanDatabase db) = cleanDatabase db := by
    unfold deleteDuplicateTrainers
    rw [keepMinPerKey_of_pairwise q3]
  have hs5 : deleteDuplicateTypes (cleanDatabase db) = cleanDatabase db := by
    unfold deleteDuplicateTypes
    rw [keepMinPerKey_of_pairwise q1]
  have hs6 : deleteSentinelAbilities (cleanDatabase db) = cleanDatabase db := by
    unfold deleteSentinelAbilities
    rw [List.filter_eq_self.mpr (fun a ha => by simpa using q6 a ha)]
  have hs7 : normalizeTypeNames (cleanDatabase db) = cleanDatabase db := by
    unfold normalizeTypeNames
    rw [map_eq_self_of_id (fun t ht => by rw [clean_types_canonical db t ht])]
  have hs8 : fixAbilityMisspellings (cleanDatabase db) = cleanDatabase db := by
    unfold fixAbilityMisspellings
    rw [map_eq_self_of_id (fun a ha => by
      have hfix : fixAbilityName a.name = a.name := by
        rcases clean_abilities_canonical db a ha with hn | ⟨s, hs⟩
        · rw [hn]
          decide
        · rw [hs]
          exact fixAbilityName_titleCase s
      rw [hfix])]
  have hs9 : repointPokemonType2 (cleanDatabase db) = cleanDatabase db := by
    unfold repointPokemonType2
    rw [map_eq_self_of_id (fun p hp =>
      repoint_body_id q1n q1 (clean_types_canonical db) (q7 p hp))]
  have hs10 : fixTrainerMisspellings (cleanDatabase db) = cleanDatabase db := by
    unfold fixTrainerMisspellings
    rw [map_eq_self_of_id (fun t ht => by rw [(clean_trainers_shape db t ht).1])]
  have hs11 : deleteInvalidTrainers (cleanDatabase db) = cleanDatabase db := by
    unfold deleteInvalidTrainers
    rw [List.filter_eq_self.mpr (fun t ht => by simpa using (clean_trainers_shape db t ht).2)]
  have hs12 : fixPokemonMisspellings (cleanDatabase db) = cleanDatabase db := by
    unfold fixPokemonMisspellings
    rw [map_eq_self_of_id (fun p hp => by rw [clean_pokemon_shape db p hp])]
  have hs13 : titleCaseAbilityNames (cleanDatabase db) = cleanDatabase db := by
    unfold titleCaseAbilityNames
    rw [map_eq_self_of_id (fun a ha => by
      rcases clean_abilities_canonical db a ha with hn | ⟨s, hs⟩
      · rw [hn]
      · have hbody : (match a.name with
            | none => a
            | some s => { a with name := some (titleCaseHyphenated s) })
              = { a with name := some (titleCaseHyphenated (titleCaseHyphenated s)) } := by
          rw [hs]
        rw [hbody, titleCaseHyphenated_idem, ← hs])]
  have hstep : cleanDatabase (cleanDatabase db)
      = titleCaseAbilityNames (fixPokemonMisspellings (deleteInvalidTrainers
          (fixTrainerMisspellings (repointPokemonType2 (fixAbilityMisspellings
            (normalizeTypeNames (deleteSentinelAbilities (deleteDuplicateTypes
              (deleteDuplicateTrainers (deleteDuplicateTpa (deleteDuplicatePokemon
                (deleteDuplicateAbilities (cleanDatabase db))))))))))))) := rfl
  rw [hstep, hs1, hs2, hs3, hs4, hs5, hs6, hs7, hs8, hs9, hs10, hs11, hs12, hs13]

/-- Witness for C1: the cleaned form of `pikaQueryDB` separates all keys,
so cleaning it twice equals cleaning it once. -/
theorem cleanDatabase_idempotent_witness :
    cleanDatabase (cleanDatabase pikaQueryDB) = cleanDatabase pikaQueryDB :=
  cleanDatabase_idempotent_of_separated pikaQueryDB (by decide) (by decide) (by decide)
    (by decide) (by decide) (by decide) (by decide) (by decide)

/-- C1 counterexample.  On `twoWaterDB` (type names "water" and "Water")
the first cleaning pass normalizes both surviving rows to "Water", and the
second pass deletes one of them: cleaning twice differs from cleaning
once. -/
theorem cleanDatabase_not_idempotent_counterexample :
    cleanDatabase (cleanDatabase twoWaterDB) ≠ cleanDatabase twoWaterDB := by
  decide

/-- C2 (amended).  After cleaning a well-formed store — per-table
case-insensitively distinct names for types, abilities and trainers,
exact-key-distinct creatures, no ability named "gras", no misspelled
creature names, intact type2 references, and duplicate-free row ids for
types and join rows — no two surviving Type rows share a case-normalized
name, and likewise for Ability and Trainer rows; no two Creature rows
share (name, type1_id, type2_id); and no two join rows share
(trainer_id, pokemon_id, ability_id).  (Without the provisos the claim
fails, because deduplication runs before case-normalization: see the
counterexample.) -/
theorem clean_establishes_uniqueness_of_wellformed_input :
    ∀ db : DB,
      db.types.Pairwise (fun a b => nocaseKey a.name ≠ nocaseKey b.name) →
      ((db.types.map (fun t => t.id)).Nodup) →
      db.abilities.Pairwise (fun a b => nocaseKey a.name ≠ nocaseKey b.name) →
      (∀ a ∈ db.abilities, a.name ≠ some "gras") →
      db.trainers.Pairwise (fun a b => nocaseKey a.name ≠ nocaseKey b.name) →
      db.pokemon.Pairwise (fun a b => (a.name, a.type1_id, a.type2_id)
          ≠ (b.name, b.type1_id, b.type2_id)) →
      (∀ p ∈ db.pokemon, p.name ≠ some "Pikuchu" ∧ p.name ≠ some "Charmanderr"
        ∧ p.name ≠ some "Bulbasuar" ∧ p.name ≠ some "RATtata") →
      (∀ p ∈ db.pokemon, p.type2_id = none
        ∨ ∃ t ∈ db.types, p.type2_id = some t.id ∧ t.name ≠ none) →
      ((db.tpa.map (fun j => j.id)).Nodup) →
      (cleanDatabase db).types.Pairwise (fun a b => nocaseKey a.name ≠ nocaseKey b.name)
        ∧ (cleanDatabase db).abilities.Pairwise (fun a b => nocaseKey a.name ≠ nocaseKey b.name)
        ∧ (cleanDatabase db).trainers.Pairwise (fun a b => nocaseKey a.name ≠ nocaseKey b.name)
        ∧ (cleanDatabase db).pokemon.Pairwise (fun a b => (a.name, a.type1_id, a.type2_id)
            ≠ (b.name, b.type1_id, b.type2_id))
        ∧ (cleanDatabase db).tpa.Pairwise (fun a b => (a.trainer_id, a.pokemon_id, a.ability_id)
            ≠ (b.trainer_id, b.pokemon_id, b.ability_id)) := by
  intro db hT hTn hA hAg hR hP hPm hPref hJn
  refine ⟨?_, ?_, ?_, ?_, ?_⟩
  · rw [clean_types_eq]
    exact pairwise_key_map (fun r _ => nocaseKey_map_capitalize r.name)
      (hT.sublist (keepMinPerKey_sublist _ _ _))
  · rw [clean_abilities_eq]
    have hkm := hA.sublist (keepMinPerKey_sublist (fun a : AbilityRow => a.name)
      (fun a => a.id) db.abilities)
    have hfl : ((keepMinPerKey (fun a : AbilityRow => a.name) (fun a => a.id)
        db.abilities).filter (fun a => decide (a.name ≠ some "Remove this ability"))).Pairwise
          (fun a b => nocaseKey a.name ≠ nocaseKey b.name) :=
      hkm.sublist (List.filter_sublist _)
    have hmem : ∀ a ∈ (keepMinPerKey (fun a : AbilityRow => a.name) (fun a => a.id)
        db.abilities).filter (fun a => decide (a.name ≠ some "Remove this ability")),
        a.name ≠ some "gras" := fun a ha =>
      hAg a ((keepMinPerKey_sublist _ _ _).mem ((List.filter_sublist _).mem ha))
    have hfx : (((keepMinPerKey (fun a : AbilityRow => a.name) (fun a => a.id)
        db.abilities).filter (fun a => decide (a.name ≠ some "Remove this ability"))).map
          (fun a => { a with name := fixAbilityName a.name })).Pairwise
            (fun a b => nocaseKey a.name ≠ nocaseKey b.name) :=
      pairwise_key_map (fun r hr => nocaseKey_fixAbilityName (hmem r hr)) hfl
    refine pairwise_key_map (fun r _ => ?_) hfx
    cases hrn : r.name with
    | none =>
      show nocaseKey r.name = nocaseKey none
      rw [hrn]
    | some s =>
      show some (foldCase (titleCaseHyphenated s)) = some (foldCase s)
      rw [foldCase_titleCaseHyphenated]
  · rw [clean_trainers_eq]
    exact (pairwise_key_map (fun r _ => nocaseKey_fixTrainerName r.name)
      (hR.sublist (keepMinPerKey_sublist _ _ _))).sublist (List.filter_sublist _)
  · have hexactT : db.types.Pairwise (fun a b => a.name ≠ b.name) := pairwise_name_of_nocase hT
    have hdt : keepMinPerKey (fun t : TypeRow => t.name) (fun t => t.id) db.types = db.types :=
      keepMinPerKey_of_pairwise hexactT
    have hdp : keepMinPerKey (fun p : PokemonRow => (p.name, p.type1_id, p.type2_id))
        (fun p => p.id) db.pokemon = db.pokemon := keepMinPerKey_of_pairwise hP
    rw [clean_pokemon_eq]
    simp only [hdt, hdp]
    have hnd2 : ((db.types.map
        (fun t : TypeRow => { t with name := t.name.map capitalize })).map
          (fun t => t.id)).Nodup := by
      rw [List.map_map]
      exact hTn
    have hpw2 : (db.types.map
        (fun t : TypeRow => { t with name := t.name.map capitalize })).Pairwise
          (fun a b => a.name ≠ b.name) :=
      pairwise_name_of_nocase
        (pairwise_key_map (fun r _ => nocaseKey_map_capitalize r.name) hT)
    have hcanon2 : ∀ t ∈ db.types.map
        (fun t : TypeRow => { t with name := t.name.map capitalize }),
        t.name.map capitalize = t.name := by
      intro t ht
      rcases List.mem_map.mp ht with ⟨t0, _, hte⟩
      rw [← hte]
      show (t0.name.map capitalize).map capitalize = t0.name.map capitalize
      cases t0.name with
      | none => rfl
      | some s =>
        show some (capitalize (capitalize s)) = some (capitalize s)
        rw [capitalize_idem]
    have hvalid2 : ∀ p ∈ db.pokemon, p.type2_id = none
        ∨ ∃ t ∈ db.types.map (fun t : TypeRow => { t with name := t.name.map capitalize }),
            p.type2_id = some t.id ∧ t.name ≠ none := by
      intro p hp
      rcases hPref p hp with hnone | ⟨t, htm, hte, htn⟩
      · exact Or.inl hnone
      · refine Or.inr ⟨{ t with name := t.name.map capitalize },
          List.mem_map_of_mem _ htm, hte, ?_⟩
        show t.name.map capitalize ≠ none
        cases hts : t.name with
        | none => exact absurd hts htn
        | some s => simp
    have hrep : db.pokemon.map (fun p => match p.type2_id with
        | none => p
        | some tid =>
          { p with
              type2_id :=
                typeIdByName
                  (db.types.map (fun t : TypeRow => { t with name := t.name.map capitalize }))
                  ((typeNameById
                      (db.types.map
                        (fun t : TypeRow => { t with name := t.name.map capitalize })) tid).map
                    capitalize) }) = db.pokemon :=
      map_eq_self_of_id (fun p hp => repoint_body_id hnd2 hpw2 hcanon2 (hvalid2 p hp))
    rw [hrep]
    rw [map_eq_self_of_id (fun p hp => by
      have h4 := hPm p hp
      rw [fixPokemonName_id_of h4.1 h4.2.1 h4.2.2.1 h4.2.2.2])]
    exact hP
  · rw [cleanDatabase_tpa]
    exact keepMinPerKey_pairwise hJn

/-- Witness for C2: the well-formed store `pikaQueryDB` satisfies all
five uniqueness conclusions after cleaning. -/
theorem clean_establishes_uniqueness_witness :
    (cleanDatabase pikaQueryDB).types.Pairwise
        (fun a b => nocaseKey a.name ≠ nocaseKey b.name)
      ∧ (cleanDatabase pikaQueryDB).tpa.Pairwise
          (fun a b => (a.trainer_id, a.pokemon_id, a.ability_id)
            ≠ (b.trainer_id, b.pokemon_id, b.ability_id)) := by
  have h := clean_establishes_uniqueness_of_wellformed_input pikaQueryDB (by decide) (by decide)
    (by decide) (by decide) (by decide) (by decide) (by decide) (by decide) (by decide)
  exact ⟨h.1, h.2.2.2.2⟩

/-- C2 counterexample.  On `twoWaterDB` both case-variant type rows
survive the exact-name deduplication and are then both normalized to
"Water": two surviving Type rows share a case-normalized name. -/
theorem clean_uniqueness_counterexample :
    (cleanDatabase twoWaterDB).types = [⟨1, some "Water"⟩, ⟨2, some "Water"⟩]
      ∧ ¬ ((cleanDatabase twoWaterDB).types.Pairwise
            (fun a b => nocaseKey a.name ≠ nocaseKey b.name)) :=
  ⟨by decide, by decide⟩
